import Mathlib

/-!
# Verification of the toad HTTP router (`src/router.ts`)

This file embeds the dispatch pipeline of the toad router in Lean 4:
the middleware chain engine inside `Router.handle`, the builder
operations (`use`, the verb methods via `#addRoute`, `route`), path
normalization, and the base-path fallback registration performed by the
`Router` constructor.

Mutable JavaScript arrays (each router node's working middleware stack)
are modelled with an explicit heap: `World.stackArrays` is the arena of stack
arrays and a node holds an index (`stackRef`) into it.  Likewise the two
`Memoirist` route tables are arena-allocated so that "same table
instance" is expressible as equality of indices.

The `Memoirist` path matcher is an external npm dependency (not part of
this repository); it is modelled from the spec's Path Matcher contract
(§6): literal segments match exactly, `:name` binds one non-empty
segment, a trailing `*` binds the remainder, more specific patterns win,
and re-adding the same `(method, pattern)` key overwrites the payload.
-/

/-- Request-scoped locals threaded through the chain.  The engine treats
locals as an opaque value; we fix a concrete representable type. -/
abbrev Locals := List (String × String)

/-- Path parameters extracted by the matcher. -/
abbrev Params := List (String × String)

/-- A response: status code plus a structured JSON-object body
(`Response.json(body, { status })` in the source). -/
structure Rsp where
  status : Nat
  body : List (String × String)
  deriving DecidableEq

/-- The `Response.json({ message: "Not found" }, { status: 404 })` value
produced by the terminal step of `Router.handle` when no route matched. -/
def notFoundResponse : Rsp := { status := 404, body := [("message", "Not found")] }

/-- Errors travelling up the chain: values thrown by user middleware or
handlers, or the engine's own `new Error("No stack handler found")`. -/
inductive Err where
  | thrown (s : String)
  | noStackHandler
  deriving DecidableEq

deriving instance DecidableEq for Except

/-- An incoming request (method and URL, the only fields `handle` reads). -/
structure Request where
  method : String
  url : String
  deriving DecidableEq

/-- The context threaded through the chain (`BeforeCtx` / `RequestCtx`
in the source): request, matched route pattern (or null), locals,
parameters. -/
structure Ctx where
  request : Request
  matchedRoute : Option String
  locals : Locals
  parameters : Params
  deriving DecidableEq

/-- Trace events emitted by instrumented middleware and handlers, used
to observe execution order and the context each step received. -/
inductive Event where
  | before (id : Nat)
  | after (id : Nat)
  | obs (id : Nat) (l : Locals)
  | obsCtx (id : Nat) (matched : Option String) (ps : Params)
  | handlerObs (l : Locals) (matched : Option String) (ps : Params)
  deriving DecidableEq

/-- The action a middleware takes on its context: return a response
without calling `next`, throw without calling `next`, or call `next`
with a locals value and post-process `next`'s outcome (the code after
`await next(...)`, which may also catch a thrown error, as
`handleErrors` does). -/
inductive MwAct where
  | halt (r : Rsp)
  | raise (e : String)
  | callNext (v : Locals) (after : Except Err Rsp → List Event × Except Err Rsp)

/-- A middleware `(ctx, next) => ...`: trace events emitted on entry,
then an action.  This first-order shape calls `next` at most once, which
covers every middleware in the repository. -/
structure Mw where
  entry : Ctx → List Event
  act : Ctx → MwAct

/-- A route handler `(ctx) => Response`, which may emit trace events and
may throw. -/
abbrev Handler := Ctx → List Event × Except Err Rsp

/-! ## Path string helpers

The source manipulates paths with JavaScript string/regex operations;
we implement them structurally over `List Char` so the kernel can
evaluate them. -/

/-- `s.split(sep)` on characters: splits into (possibly empty) chunks. -/
def splitChar (sep : Char) : List Char → List (List Char)
  | [] => [[]]
  | c :: rest =>
    match splitChar sep rest with
    | [] => [[]]
    | s :: ss => if c = sep then [] :: s :: ss else (c :: s) :: ss

/-- `parts.join(sep)` on characters. -/
def joinChar (sep : Char) : List (List Char) → List Char
  | [] => []
  | [s] => s
  | s :: ss => s ++ sep :: joinChar sep ss

/-- `.replaceAll(/\/+/g, "/")`: collapse every run of slashes to one
(when two successive slashes appear, the first is dropped). -/
def collapseSlashes : List Char → List Char
  | [] => []
  | [c] => [c]
  | c :: d :: rest =>
    if c = '/' ∧ d = '/' then collapseSlashes (d :: rest)
    else c :: collapseSlashes (d :: rest)

/-- `.replace(/\/*$/, "")`: drop the trailing run of slashes. -/
def dropTrailingSlashes (l : List Char) : List Char :=
  (l.reverse.dropWhile (fun c => c = '/')).reverse

/-- `Router.#normalizePath`: prepend `/`, collapse slash runs, strip
trailing slashes, and map the empty result to `"/"`. -/
def normalizePath (path : String) : String :=
  let s := dropTrailingSlashes (collapseSlashes ('/' :: path.toList))
  if s = [] then "/" else String.mk s

/-- The path-extraction step of `Router.handle`:
`request.url.split("/").slice(3).join("/").replace(/\?.*$/, "")`. -/
def extractPath (url : String) : String :=
  String.mk ((joinChar '/' ((splitChar '/' url.toList).drop 3)).takeWhile (fun c => c ≠ '?'))

/-- The normalized request path used for both matcher lookups in
`Router.handle`. -/
def reqPath (req : Request) : String :=
  normalizePath (extractPath req.url)

/-! ## The path matcher

Modelled from the spec: the `Memoirist` matcher consumed by the router
is an external collaborator; the spec's Path Matcher contract (§6)
specifies `add`/`find`, the pattern syntax (`:name` segments, trailing
`*`) and that more specific patterns are preferred; re-registering the
same `(method, path)` key overwrites the previous payload (last
registration wins). -/

/-- One registered `(method, pattern) -> payload` tuple. -/
structure Entry (α : Type) where
  method : String
  pattern : String
  store : α
  deriving DecidableEq

/-- A matcher table: the registration list. -/
abbrev Table (α : Type) := List (Entry α)

/-- Whether an entry has the given `(method, pattern)` key. -/
def keyMatches {α : Type} (e : Entry α) (m p : String) : Bool :=
  e.method = m && e.pattern = p

/-- Modelled from the spec: `add(method, pattern, payload)` — overwrite
the payload if the `(method, pattern)` key is present, otherwise append. -/
def tableAdd {α : Type} (t : Table α) (m p : String) (s : α) : Table α :=
  if t.any (fun e => keyMatches e m p) then
    t.map (fun e => if keyMatches e m p then { e with store := s } else e)
  else
    t ++ [⟨m, p, s⟩]

/-- Split a pattern or path into its `/`-separated segments. -/
def segs (s : String) : List String :=
  (splitChar '/' s.toList).map (fun l => String.mk l)

/-- Whether a pattern segment is a `:name` parameter segment. -/
def isParamSeg (s : String) : Bool :=
  match s.toList with
  | ':' :: _ => true
  | _ => false

/-- The `name` of a `:name` pattern segment. -/
def paramName (s : String) : String :=
  String.mk (s.toList.drop 1)

/-- Modelled from the spec: match pattern segments against path
segments.  Literals match exactly, `:name` binds one non-empty segment,
a trailing `*` binds the remaining segments joined by `/`. -/
def matchSegs : List String → List String → Option Params
  | [], [] => some []
  | ["*"], rest => some [("*", String.mk (joinChar '/' (rest.map String.toList)))]
  | p :: ps, s :: ss =>
    if isParamSeg p then
      if s = "" then none
      else (matchSegs ps ss).map (fun binds => (paramName p, s) :: binds)
    else if p = s then matchSegs ps ss
    else none
  | _, _ => none

/-- Specificity score of a pattern: patterns without `*` beat patterns
with `*`; among those, more literal segments is more specific. -/
def patScore (p : String) : Nat × Nat :=
  let ss := segs p
  (if ss.contains "*" then 0 else 1,
   (ss.filter (fun s => !isParamSeg s && s ≠ "*")).length)

/-- Strict lexicographic comparison of specificity scores. -/
def scoreGt (a b : Nat × Nat) : Bool :=
  a.1 > b.1 || (a.1 = b.1 && a.2 > b.2)

/-- Compare a candidate against the best of the rest: the strictly more
specific one wins; the nearer (earlier) candidate wins ties. -/
def pickBetter {α : Type} (c : Entry α × Params) :
    Option (Entry α × Params) → Option (Entry α × Params)
  | none => some c
  | some b => if scoreGt (patScore b.1.pattern) (patScore c.1.pattern) then some b else some c

/-- Keep the most specific candidate (first wins ties). -/
def pickBest {α : Type} : List (Entry α × Params) → Option (Entry α × Params)
  | [] => none
  | c :: cs => pickBetter c (pickBest cs)

/-- Modelled from the spec: `find(method, path)` — among entries of the
given method whose pattern matches the path, return the most specific
one's payload and bindings. -/
def tableFind {α : Type} (t : Table α) (m path : String) : Option (α × Params) :=
  let cands := t.filterMap (fun e =>
    if e.method = m then (matchSegs (segs e.pattern) (segs path)).map (fun ps => (e, ps))
    else none)
  (pickBest cands).map (fun c => (c.1.store, c.2))

/-- Key (method, pattern) uniqueness of a matcher table. -/
def keysOK {α : Type} (t : Table α) : Prop :=
  (t.map (fun e => (e.method, e.pattern))).Nodup

/-! ## The router

A `Router` value is a node of the builder tree: its `#basePath`, plus
heap references for its mutable `#stack` array and the two shared
`Memoirist` tables.  The `World` is the heap. -/

/-- The payload `#addRoute` stores in the route table (`RouterCtx` in
the source): the original pattern, the captured stack snapshot (a heap
reference to the array allocated by `[...this.#stack]`) and the handler. -/
structure RouteStore where
  matchingRoute : String
  stackRef : Nat
  handler : Handler

/-- The heap: all allocated middleware stack arrays and all allocated
`Memoirist` table instances. -/
structure World where
  stackArrays : List (List Mw)
  stackTables : List (Table Nat)
  routeTables : List (Table RouteStore)

/-- The empty heap. -/
def World.empty : World := ⟨[], [], []⟩

/-- A router node: `#basePath`, and heap references for `#stack`,
`#stackRouter` and `#router`. -/
structure Router where
  basePath : String
  stackRef : Nat
  stackTRef : Nat
  routeTRef : Nat
  deriving DecidableEq

/-- The `Router` constructor: store the passed base path and stack
array (allocating the array value passed by the caller), and register
the base path and `basePath + "/*"` in the stack router, both mapping to
the (live) stack array. -/
def routerCtor (w : World) (basePath : String) (stackContents : List Mw)
    (stackTRef routeTRef : Nat) : World × Router :=
  let sref := w.stackArrays.length
  let w1 := { w with stackArrays := w.stackArrays ++ [stackContents] }
  let stackPath := basePath ++ "/*"
  let st := tableAdd (tableAdd (w1.stackTables.getD stackTRef []) "GET" stackPath sref)
    "GET" basePath sref
  let w2 := { w1 with stackTables := w1.stackTables.set stackTRef st }
  (w2, ⟨basePath, sref, stackTRef, routeTRef⟩)

/-- `createRouter()`: `new Router("")` with the default (fresh) stack
array and fresh `Memoirist` instances. -/
def createRouter (w : World) : World × Router :=
  let stackTRef := w.stackTables.length
  let routeTRef := w.routeTables.length
  let w1 := { w with stackTables := w.stackTables ++ [[]],
                     routeTables := w.routeTables ++ [[]] }
  routerCtor w1 "" [] stackTRef routeTRef

/-- `use(md)`: push the middleware onto this node's working stack
(mutating only that array). -/
def Router.use (w : World) (n : Router) (m : Mw) : World :=
  { w with stackArrays := w.stackArrays.set n.stackRef ((w.stackArrays.getD n.stackRef []) ++ [m]) }

/-- `Router.#addRoute`: normalize the path, then register
`{ matchingRoute: path, stack: [...this.#stack], handler: fn }` under
`(method, normalizedPath)`. The stack copy is a fresh array allocation. -/
def Router.addRoute (w : World) (n : Router) (method path : String) (fn : Handler) : World :=
  let normalizedPath := normalizePath path
  let snapRef := w.stackArrays.length
  let w1 := { w with stackArrays := w.stackArrays ++ [w.stackArrays.getD n.stackRef []] }
  let rt := tableAdd (w1.routeTables.getD n.routeTRef []) method normalizedPath ⟨path, snapRef, fn⟩
  { w1 with routeTables := w1.routeTables.set n.routeTRef rt }

/-- `get(path, fn)`: register a GET route at `basePath + path`. -/
def Router.get (w : World) (n : Router) (path : String) (fn : Handler) : World :=
  Router.addRoute w n "GET" (n.basePath ++ path) fn

/-- `post(path, fn)`: register a POST route at `basePath + path`. -/
def Router.post (w : World) (n : Router) (path : String) (fn : Handler) : World :=
  Router.addRoute w n "POST" (n.basePath ++ path) fn

/-- `route(path, fn)`: create a child node at `basePath + path` with a
shallow copy of the current stack and the same `Memoirist` instances
(the configure callback is applied by the builder programs below). -/
def Router.route (w : World) (n : Router) (path : String) : World × Router :=
  routerCtor w (n.basePath ++ path) (w.stackArrays.getD n.stackRef []) n.stackTRef n.routeTRef

/-! ## The middleware chain engine inside `Router.handle`

The source's `next` closure reads a cursor `i` into the resolved stack
and increments it at each call: if the stack is exhausted it runs the
terminal step, otherwise it invokes `stack[i]` with the context
re-wrapped around the new locals and the continuation.  `runChain` is
that closure, with the cursor represented by the suffix of the stack
that has not been entered yet (every middleware modelled by `Mw` calls
`next` at most once, for which the two presentations agree). -/

/-- The `next` closure of `Router.handle`: on an exhausted stack run the
terminal step, otherwise run the next middleware with locals replaced by
`out`, continuing into the rest of the stack when it calls `next`. -/
def runChain (ctx0 : Ctx) (terminal : Locals → List Event × Except Err Rsp) :
    List Mw → Locals → List Event × Except Err Rsp
  | [], out => terminal out
  | md :: rest, out =>
    let c := { ctx0 with locals := out }
    let ev := md.entry c
    match md.act c with
    | .halt r => (ev, .ok r)
    | .raise e => (ev, .error (.thrown e))
    | .callNext v after =>
      let inner := runChain ctx0 terminal rest v
      let post := after inner.2
      (ev ++ inner.1 ++ post.1, post.2)

/-- `Router.handle`: normalize the request path, look up a route match
and a base-path stack match, resolve the effective stack (route's stack,
else base-path stack, else throw `"No stack handler found"`), build the
initial context, and run the chain starting with `next({})`; the
terminal step returns the 404 response when no route matched, and
otherwise invokes the matched handler with the route's pattern, the
final locals and the route match's parameters. -/
def Router.handle (w : World) (n : Router) (req : Request) :
    List Event × Except Err Rsp :=
  let path := reqPath req
  let handler := tableFind (w.routeTables.getD n.routeTRef []) req.method path
  let stackHandler := tableFind (w.stackTables.getD n.stackTRef []) "GET" path
  match (handler.map (fun h => h.1.stackRef)).orElse (fun _ => stackHandler.map (fun s => s.1)) with
  | none => ([], .error .noStackHandler)
  | some sref =>
    let stack := w.stackArrays.getD sref []
    let ctx : Ctx :=
      { request := req,
        matchedRoute := handler.map (fun h => h.1.matchingRoute),
        locals := [],
        parameters := (stackHandler.map (fun s => s.2)).getD [] }
    let terminal : Locals → List Event × Except Err Rsp := fun out =>
      match handler with
      | none => ([], .ok notFoundResponse)
      | some (store, params) =>
        store.handler { ctx with
          matchedRoute := some store.matchingRoute,
          locals := out,
          parameters := params }
    runChain ctx terminal stack []

/-! ## Builder programs

A `BuildOp` is one fluent-builder call; `execOps` applies a list of them
to a node, recursing into sub-router configure callbacks, and collects
every node created. -/

/-- One builder call: `use`, a verb registration, or `route` with the
configure callback's own calls. -/
inductive BuildOp where
  | use (m : Mw)
  | verb (method : String) (path : String) (h : Handler)
  | sub (path : String) (ops : List BuildOp)

mutual

/-- Apply one builder call to a node, returning the new heap and the
nodes created (the sub-router and its descendants, for `route`). -/
def execOp (w : World) (n : Router) : BuildOp → World × List Router
  | .use m => (Router.use w n m, [])
  | .verb method path h => (Router.addRoute w n method (n.basePath ++ path) h, [])
  | .sub path ops =>
    let wc := Router.route w n path
    let rest := execOps wc.1 wc.2 ops
    (rest.1, wc.2 :: rest.2)

/-- Apply a list of builder calls in order. -/
def execOps (w : World) (n : Router) : List BuildOp → World × List Router
  | [] => (w, [])
  | op :: ops =>
    let r1 := execOp w n op
    let r2 := execOps r1.1 n ops
    (r2.1, r1.2 ++ r2.2)

end

/-- Build a complete router tree from scratch: `createRouter()` followed
by the given builder calls.  Returns the heap, the root node and every
node created by `route` calls. -/
def buildAll (ops : List BuildOp) : World × Router × List Router :=
  let wr := createRouter World.empty
  let res := execOps wr.1 wr.2 ops
  (res.1, wr.2, res.2)

/-! ## Instrumented middleware and handlers

Concrete middleware shapes used to observe the engine: they emit trace
events identifying themselves and the context they received. -/

/-- A pass-through middleware: emits `before id`, calls
`next (f locals)`, and after `next` resolves emits `after id` and
returns the response unchanged; a thrown error skips the after-portion
and propagates (as `await next(...)` rethrows in the source). -/
def tagMw (id : Nat) (f : Locals → Locals) : Mw :=
  { entry := fun _ => [.before id],
    act := fun c => .callNext (f c.locals) (fun r =>
      match r with
      | .ok x => ([.after id], .ok x)
      | .error e => ([], .error e)) }

/-- `tagMw` on a pair, for mapping over lists. -/
def tagMwP (p : Nat × (Locals → Locals)) : Mw := tagMw p.1 p.2

/-- A locals-observing middleware: records the exact locals value it was
given, then calls `next (f locals)` and passes the outcome through. -/
def obsMw (id : Nat) (f : Locals → Locals) : Mw :=
  { entry := fun c => [.obs id c.locals],
    act := fun c => .callNext (f c.locals) (fun r => ([], r)) }

/-- `obsMw` on a pair, for mapping over lists. -/
def obsMwP (p : Nat × (Locals → Locals)) : Mw := obsMw p.1 p.2

/-- A context-observing middleware: records the `matchedRoute` and
`parameters` it was given, then calls `next` with its locals unchanged. -/
def ctxMw (id : Nat) : Mw :=
  { entry := fun c => [.obsCtx id c.matchedRoute c.parameters],
    act := fun c => .callNext c.locals (fun r => ([], r)) }

/-- A short-circuiting middleware: emits `before id` and returns `r`
without ever calling `next`. -/
def haltMw (id : Nat) (r : Rsp) : Mw :=
  { entry := fun _ => [.before id], act := fun _ => .halt r }

/-- A throwing middleware: emits `before id` and throws `e` without ever
calling `next`. -/
def raiseMw (id : Nat) (e : String) : Mw :=
  { entry := fun _ => [.before id], act := fun _ => .raise e }

/-- `handleErrors(handler)` from `src/middleware.ts`: calls
`next(ctx.locals)` inside a try/catch and, on a thrown error, returns
`handler(ctx, error)` instead. -/
def handleErrors (h : Ctx → Err → Rsp) : Mw :=
  { entry := fun _ => [],
    act := fun c => .callNext c.locals (fun r =>
      match r with
      | .ok resp => ([], .ok resp)
      | .error e => ([], .ok (h c e))) }

/-- An instrumented route handler: records the context it was invoked
with and returns `r`. -/
def obsHandler (r : Rsp) : Handler :=
  fun c => ([.handlerObs c.locals c.matchedRoute c.parameters], .ok r)

/-- A throwing route handler. -/
def raiseHandler (e : String) : Handler :=
  fun _ => ([], .error (.thrown e))

/-- The `before` events of a list of tagged middleware, in registration
order. -/
def befores (ms : List (Nat × (Locals → Locals))) : List Event :=
  ms.map (fun p => .before p.1)

/-- The `after` events of a list of tagged middleware, in reverse
registration order. -/
def aftersRev (ms : List (Nat × (Locals → Locals))) : List Event :=
  ms.reverse.map (fun p => .after p.1)

/-- The locals value produced by threading `l` through the `next` calls
of the given middleware in order. -/
def foldLocals (ms : List (Nat × (Locals → Locals))) (l : Locals) : Locals :=
  ms.foldl (fun acc p => p.2 acc) l

/-- The observation trace of a chain of `obsMw` middleware started with
locals `l`: each records exactly the value passed by its predecessor. -/
def obsTrace (ms : List (Nat × (Locals → Locals))) (l : Locals) : List Event :=
  match ms with
  | [] => []
  | p :: rest => .obs p.1 l :: obsTrace rest (p.2 l)

/-- The context a middleware observes during a dispatch that matched the
route `store`, where the base-path lookup returned `sf` and the current
locals are `l`. -/
def mwCtx (req : Request) (store : RouteStore) (sf : Option (Nat × Params)) (l : Locals) : Ctx :=
  { request := req, matchedRoute := some store.matchingRoute, locals := l,
    parameters := (sf.map Prod.snd).getD [] }

/-- The context the matched handler is invoked with: the route's
pattern, the final locals `l`, and the route match's parameters `rps`. -/
def handlerCtx (req : Request) (store : RouteStore) (rps : Params) (l : Locals) : Ctx :=
  { request := req, matchedRoute := some store.matchingRoute, locals := l,
    parameters := rps }

/-- The context a middleware observes during a dispatch with no route
match, where the base-path match bound parameters `sps`. -/
def fallbackCtx (req : Request) (sps : Params) (l : Locals) : Ctx :=
  { request := req, matchedRoute := none, locals := l, parameters := sps }

/-- The outcome of a middleware action that never calls `next`. -/
def stopOutcome : MwAct → Option (Except Err Rsp)
  | .halt r => some (.ok r)
  | .raise e => some (.error (.thrown e))
  | .callNext _ _ => none

/-- A world for the C1 witness: two pass-through middleware and a GET
route on `/hello` with an instrumented handler. -/
def c1World : World × Router :=
  let wr := createRouter World.empty
  let wa := Router.use wr.1 wr.2 (tagMw 1 (fun l => ("a", "1") :: l))
  let wb := Router.use wa wr.2 (tagMw 2 (fun l => ("b", "2") :: l))
  (Router.get wb wr.2 "/hello" (obsHandler ⟨200, []⟩), wr.2)

/-- A world for the C2 witness: a pass-through middleware, then a
middleware that returns a 403 without calling `next`, then another
middleware and a route handler that must not run. -/
def c2World : World × Router :=
  let wr := createRouter World.empty
  let wa := Router.use wr.1 wr.2 (tagMw 1 (fun l => ("a", "1") :: l))
  let wb := Router.use wa wr.2 (haltMw 2 ⟨403, []⟩)
  let wc := Router.use wb wr.2 (tagMw 3 (fun l => ("c", "3") :: l))
  (Router.get wc wr.2 "/hello" (obsHandler ⟨200, []⟩), wr.2)

/-- A world for the C3 witness: two locals-observing middleware, each
extending the locals, and a handler observing the final value. -/
def c3World : World × Router :=
  let wr := createRouter World.empty
  let wa := Router.use wr.1 wr.2 (obsMw 1 (fun l => ("a", "1") :: l))
  let wb := Router.use wa wr.2 (obsMw 2 (fun l => ("b", "2") :: l))
  (Router.get wb wr.2 "/hello" (obsHandler ⟨200, []⟩), wr.2)

/-- A world for the C7 witness: one global middleware, one registered
route, and a request for an unregistered path. -/
def c7World : World × Router :=
  let wr := createRouter World.empty
  let wa := Router.use wr.1 wr.2 (tagMw 1 (fun l => ("a", "1") :: l))
  (Router.get wa wr.2 "/hello" (obsHandler ⟨200, []⟩), wr.2)

/-- A world for the C4 witness, part 1: a transparent middleware, then a
throwing middleware, then a route handler that must not run. -/
def c4aWorld : World × Router :=
  let wr := createRouter World.empty
  let wa := Router.use wr.1 wr.2 (tagMw 1 (fun l => ("a", "1") :: l))
  let wb := Router.use wa wr.2 (raiseMw 2 "boom")
  (Router.get wb wr.2 "/hello" (obsHandler ⟨200, []⟩), wr.2)

/-- A world for the C4 witness, part 2: a transparent middleware and a
throwing route handler. -/
def c4bWorld : World × Router :=
  let wr := createRouter World.empty
  let wa := Router.use wr.1 wr.2 (tagMw 1 (fun l => ("a", "1") :: l))
  (Router.get wa wr.2 "/hello" (raiseHandler "bang"), wr.2)

/-- A world for the C4 witness, part 3: `handleErrors` wrapping a
transparent middleware and a throwing middleware. -/
def c4cWorld : World × Router :=
  let wr := createRouter World.empty
  let wa := Router.use wr.1 wr.2 (handleErrors (fun _ _ => ⟨500, [("error", "caught")]⟩))
  let wb := Router.use wa wr.2 (tagMw 1 (fun l => ("a", "1") :: l))
  let wc := Router.use wb wr.2 (raiseMw 2 "boom")
  (Router.get wc wr.2 "/hello" (obsHandler ⟨200, []⟩), wr.2)

/-- A world for the C8 witness, parts 1 and 3: two context-observing
middleware and a parameterized route. -/
def c8World : World × Router :=
  let wr := createRouter World.empty
  let wa := Router.use wr.1 wr.2 (ctxMw 1)
  let wb := Router.use wa wr.2 (ctxMw 2)
  (Router.get wb wr.2 "/u/:id" (obsHandler ⟨200, []⟩), wr.2)

/-- A hand-built world for the C8 witness, part 2: a route table entry
with no base-path registration at all (unreachable through
`createRouter`, used to exhibit the `?? {}` default). -/
def c8bWorld : World :=
  { stackArrays := [[ctxMw 1]],
    stackTables := [[]],
    routeTables := [[⟨"GET", "/hello", ⟨"/hello", 0, obsHandler ⟨200, []⟩⟩⟩]] }

/-- The number of literal (non-parameter, non-wildcard) segments. -/
def litCount (l : List String) : Nat :=
  (l.filter (fun s => !isParamSeg s && s ≠ "*")).length

/-- Heap invariants of a router tree under construction. -/
structure BuildInv (w : World) (root : Router) (ns : List Router) : Prop where
  stLt : root.stackTRef < w.stackTables.length
  rtLt : root.routeTRef < w.routeTables.length
  nodesLt : ∀ n ∈ root :: ns, n.stackRef < w.stackArrays.length
  nodesNodup : ((root :: ns).map Router.stackRef).Nodup
  sameST : ∀ n ∈ root :: ns, n.stackTRef = root.stackTRef
  sameRT : ∀ n ∈ root :: ns, n.routeTRef = root.routeTRef
  routesLt : ∀ e ∈ w.routeTables.getD root.routeTRef [],
    e.store.stackRef < w.stackArrays.length
  routesDisj : ∀ e ∈ w.routeTables.getD root.routeTRef [],
    ∀ n ∈ root :: ns, e.store.stackRef ≠ n.stackRef
  catchAll : ∃ e ∈ w.stackTables.getD root.stackTRef [],
    e.method = "GET" ∧ e.pattern = "/*"

/-- Builder calls for the C5 witness: a root middleware, a root route,
and a sub-router with its own middleware. -/
def c5Ops : List BuildOp :=
  [.use (tagMw 1 (fun l => l)),
   .verb "GET" "/a" (obsHandler ⟨200, []⟩),
   .sub "/s" [.use (tagMw 2 (fun l => l))]]

/-- A parent world for the C6 witness: a fresh router with one
pass-through middleware. -/
def c6Parent : World × Router :=
  let wr := createRouter World.empty
  (Router.use wr.1 wr.2 (tagMw 1 (fun l => ("a", "1") :: l)), wr.2)

/-- A world for the C9 witness: a route on `/dup` registered twice, with
an extra middleware added between the registrations. -/
def c9World : World × Router :=
  let wr := createRouter World.empty
  let wa := Router.use wr.1 wr.2 (tagMw 1 (fun l => ("a", "1") :: l))
  let w1 := Router.addRoute wa wr.2 "GET" "/dup" (obsHandler ⟨111, []⟩)
  let w1b := Router.use w1 wr.2 (tagMw 2 (fun l => ("b", "2") :: l))
  (Router.addRoute w1b wr.2 "GET" "/dup" (obsHandler ⟨222, []⟩), wr.2)

theorem keyMatches_iff {α : Type} (e : Entry α) (m p : String) :
    keyMatches e m p = true ↔ e.method = m ∧ e.pattern = p := by
  simp [keyMatches]

theorem tableAdd_mem {α : Type} (t : Table α) (m p : String) (s : α) (x : Entry α)
    (hx : x ∈ tableAdd t m p s) :
    (x.method = m ∧ x.pattern = p ∧ x.store = s) ∨
    (x ∈ t ∧ ¬(x.method = m ∧ x.pattern = p)) := by
  unfold tableAdd at hx
  split at hx
  · rcases List.mem_map.mp hx with ⟨e, he, hxe⟩
    by_cases hkey : keyMatches e m p = true
    · rw [if_pos hkey] at hxe
      have hk := (keyMatches_iff e m p).mp hkey
      left
      rw [← hxe]
      exact ⟨hk.1, hk.2, rfl⟩
    · rw [if_neg hkey] at hxe
      right
      rw [← hxe]
      exact ⟨he, fun hk => hkey ((keyMatches_iff e m p).mpr hk)⟩
  · rcases List.mem_append.mp hx with hxt | hxn
    · rename_i hany
      right
      refine ⟨hxt, fun hk => ?_⟩
      have : t.any (fun e => keyMatches e m p) = true :=
        List.any_eq_true.mpr ⟨x, hxt, (keyMatches_iff x m p).mpr hk⟩
      exact hany this
    · left
      simp at hxn
      rw [hxn]
      exact ⟨rfl, rfl, rfl⟩

theorem tableAdd_self {α : Type} (t : Table α) (m p : String) (s : α) :
    ∃ x ∈ tableAdd t m p s, x.method = m ∧ x.pattern = p ∧ x.store = s := by
  unfold tableAdd
  split
  · rename_i hany
    rcases List.any_eq_true.mp hany with ⟨e, he, hkey⟩
    have hk := (keyMatches_iff e m p).mp hkey
    exact ⟨{ e with store := s }, List.mem_map.mpr ⟨e, he, by rw [if_pos hkey]⟩,
      hk.1, hk.2, rfl⟩
  · exact ⟨⟨m, p, s⟩, by simp, rfl, rfl, rfl⟩

theorem keysOK_tableAdd {α : Type} (t : Table α) (m p : String) (s : α)
    (h : keysOK t) : keysOK (tableAdd t m p s) := by
  unfold tableAdd
  split
  · unfold keysOK at h ⊢
    rw [List.map_map]
    have hcomp : ((fun e : Entry α => (e.method, e.pattern)) ∘
        (fun e => if keyMatches e m p then { e with store := s } else e)) =
        fun e : Entry α => (e.method, e.pattern) := by
      funext e
      by_cases hk : keyMatches e m p = true
      · simp [Function.comp, hk]
      · simp [Function.comp, hk]
    rw [hcomp]
    exact h
  · rename_i hany
    unfold keysOK at h ⊢
    rw [List.map_append]
    simp only [List.map_cons, List.map_nil]
    rw [List.nodup_append]
    refine ⟨h, List.nodup_singleton _, ?_⟩
    intro k hk1 hk2
    simp only [List.mem_singleton] at hk2
    rcases List.mem_map.mp hk1 with ⟨e, he, hke⟩
    apply hany
    refine List.any_eq_true.mpr ⟨e, he, (keyMatches_iff e m p).mpr ?_⟩
    rw [hk2] at hke
    exact ⟨congrArg Prod.fst hke, congrArg Prod.snd hke⟩

theorem tableAdd_key_exists {α : Type} (t : Table α) (m p : String) (s : α)
    (m0 p0 : String) (h : ∃ x ∈ t, x.method = m0 ∧ x.pattern = p0) :
    ∃ x ∈ tableAdd t m p s, x.method = m0 ∧ x.pattern = p0 := by
  rcases h with ⟨x, hx, hx0⟩
  unfold tableAdd
  split
  · by_cases hk : keyMatches x m p = true
    · exact ⟨{ x with store := s }, List.mem_map.mpr ⟨x, hx, by rw [if_pos hk]⟩,
        hx0.1, hx0.2⟩
    · exact ⟨x, List.mem_map.mpr ⟨x, hx, by rw [if_neg hk]⟩, hx0⟩
  · exact ⟨x, List.mem_append_left _ hx, hx0⟩

/-! ## Generic list lemmas -/

theorem getD_set_self {α : Type} (l : List α) (i : Nat) (x d : α) (h : i < l.length) :
    (l.set i x).getD i d = x := by
  induction l generalizing i with
  | nil => simp at h
  | cons a t ih =>
    cases i with
    | zero => simp [List.set]
    | succ j =>
      simp only [List.length_cons, Nat.succ_lt_succ_iff] at h
      simp only [List.set, List.getD_cons_succ]
      exact ih j h

theorem getD_set_ne {α : Type} (l : List α) (i j : Nat) (x d : α) (h : i ≠ j) :
    (l.set i x).getD j d = l.getD j d := by
  induction l generalizing i j with
  | nil => simp [List.set]
  | cons a t ih =>
    cases i with
    | zero =>
      cases j with
      | zero => exact absurd rfl h
      | succ k => simp [List.set]
    | succ i2 =>
      cases j with
      | zero => simp [List.set]
      | succ k =>
        have hne : i2 ≠ k := fun hk => h (by rw [hk])
        simp only [List.set, List.getD_cons_succ]
        exact ih i2 k hne

theorem getD_append_self {α : Type} (l : List α) (x d : α) :
    (l ++ [x]).getD l.length d = x := by
  induction l with
  | nil => rfl
  | cons a t ih =>
    simp only [List.cons_append, List.length_cons, List.getD_cons_succ]
    exact ih

theorem getD_append_lt {α : Type} (l l2 : List α) (j : Nat) (d : α) (h : j < l.length) :
    (l ++ l2).getD j d = l.getD j d := by
  induction l generalizing j with
  | nil => simp at h
  | cons a t ih =>
    cases j with
    | zero => rfl
    | succ k =>
      simp only [List.length_cons, Nat.succ_lt_succ_iff] at h
      simp only [List.cons_append, List.getD_cons_succ]
      exact ih k h

/-! ## Resolution lemmas for `Router.handle`

These expose `handle` as a `runChain` invocation once the two matcher
lookups are known. -/

theorem mwCtx_locals (req : Request) (store : RouteStore) (sf : Option (Nat × Params))
    (l l2 : Locals) : { mwCtx req store sf l with locals := l2 } = mwCtx req store sf l2 := rfl

theorem fallbackCtx_locals (req : Request) (sps : Params) (l l2 : Locals) :
    { fallbackCtx req sps l with locals := l2 } = fallbackCtx req sps l2 := rfl

theorem handle_route_match (w : World) (n : Router) (req : Request)
    (store : RouteStore) (rps : Params) (sf : Option (Nat × Params))
    (hfind : tableFind (w.routeTables.getD n.routeTRef []) req.method (reqPath req) =
      some (store, rps))
    (hsf : tableFind (w.stackTables.getD n.stackTRef []) "GET" (reqPath req) = sf) :
    Router.handle w n req =
      runChain (mwCtx req store sf [])
        (fun out => store.handler (handlerCtx req store rps out))
        (w.stackArrays.getD store.stackRef []) [] := by
  simp only [Router.handle, hfind, hsf, Option.map_some, mwCtx, handlerCtx]
  rfl

theorem handle_no_route (w : World) (n : Router) (req : Request)
    (sref : Nat) (sps : Params)
    (hfind : tableFind (w.routeTables.getD n.routeTRef []) req.method (reqPath req) = none)
    (hsf : tableFind (w.stackTables.getD n.stackTRef []) "GET" (reqPath req) =
      some (sref, sps)) :
    Router.handle w n req =
      runChain (fallbackCtx req sps [])
        (fun _ => ([], .ok notFoundResponse))
        (w.stackArrays.getD sref []) [] := by
  simp only [Router.handle, hfind, hsf, Option.map_some, Option.map_none, fallbackCtx]
  rfl

theorem handle_no_stack (w : World) (n : Router) (req : Request)
    (hfind : tableFind (w.routeTables.getD n.routeTRef []) req.method (reqPath req) = none)
    (hsf : tableFind (w.stackTables.getD n.stackTRef []) "GET" (reqPath req) = none) :
    Router.handle w n req = ([], .error .noStackHandler) := by
  simp only [Router.handle, hfind, hsf, Option.map_none]
  rfl

/-! ## Chain lemmas -/

theorem runChain_tag (ctx0 : Ctx) (term : Locals → List Event × Except Err Rsp)
    (ms : List (Nat × (Locals → Locals))) (rest : List Mw) (out : Locals) :
    runChain ctx0 term (ms.map tagMwP ++ rest) out =
      match (runChain ctx0 term rest (foldLocals ms out)).2 with
      | .ok r =>
        (befores ms ++ (runChain ctx0 term rest (foldLocals ms out)).1 ++ aftersRev ms, .ok r)
      | .error e =>
        (befores ms ++ (runChain ctx0 term rest (foldLocals ms out)).1, .error e) := by
  induction ms generalizing out with
  | nil =>
    rcases hr : runChain ctx0 term rest out with ⟨evs, res⟩
    have hfold : foldLocals [] out = out := rfl
    cases res <;> simp [hfold, hr, befores, aftersRev]
  | cons p ms ih =>
    have hfold : foldLocals (p :: ms) out = foldLocals ms (p.2 out) := by
      simp [foldLocals]
    simp only [List.map_cons, List.cons_append, runChain, tagMwP, tagMw, hfold,
      List.append_eq]
    rw [ih (p.2 out)]
    rcases hR : runChain ctx0 term rest (foldLocals ms (p.2 out)) with ⟨evs, res⟩
    cases res <;> simp [befores, aftersRev]

theorem runChain_obs (ctx0 : Ctx) (term : Locals → List Event × Except Err Rsp)
    (ms : List (Nat × (Locals → Locals))) (out : Locals) :
    runChain ctx0 term (ms.map obsMwP) out =
      (obsTrace ms out ++ (term (foldLocals ms out)).1, (term (foldLocals ms out)).2) := by
  induction ms generalizing out with
  | nil => simp [runChain, obsTrace, foldLocals]
  | cons p ms ih =>
    have hfold : foldLocals (p :: ms) out = foldLocals ms (p.2 out) := by
      simp [foldLocals]
    simp only [List.map_cons, runChain, obsMwP, obsMw, hfold]
    rw [ih (p.2 out)]
    simp [obsTrace]

theorem runChain_ctx (ctx0 : Ctx) (term : Locals → List Event × Except Err Rsp)
    (ids : List Nat) (out : Locals) :
    runChain ctx0 term (ids.map ctxMw) out =
      (ids.map (fun id => .obsCtx id ctx0.matchedRoute ctx0.parameters) ++ (term out).1,
       (term out).2) := by
  induction ids generalizing out with
  | nil => simp [runChain]
  | cons i ids ih =>
    simp only [List.map_cons, runChain, ctxMw]
    rw [ih out]
    simp

theorem runChain_stop (ctx0 : Ctx) (term : Locals → List Event × Except Err Rsp)
    (m0 : Mw) (rest : List Mw) (out : Locals) (res : Except Err Rsp)
    (hstop : stopOutcome (m0.act { ctx0 with locals := out }) = some res) :
    runChain ctx0 term (m0 :: rest) out =
      (m0.entry { ctx0 with locals := out }, res) := by
  simp only [runChain]
  cases hact : m0.act { ctx0 with locals := out } with
  | halt r => simp [hact, stopOutcome] at hstop; simp [hstop]
  | raise e => simp [hact, stopOutcome] at hstop; simp [hstop]
  | callNext v after => simp [hact, stopOutcome] at hstop

theorem runChain_handleErrors (ctx0 : Ctx) (term : Locals → List Event × Except Err Rsp)
    (h : Ctx → Err → Rsp) (rest : List Mw) (out : Locals) :
    runChain ctx0 term (handleErrors h :: rest) out =
      ((runChain ctx0 term rest out).1,
       match (runChain ctx0 term rest out).2 with
       | .ok r => .ok r
       | .error e => .ok (h { ctx0 with locals := out } e)) := by
  simp only [runChain, handleErrors]
  rcases hr : runChain ctx0 term rest out with ⟨evs, res⟩
  cases res <;> simp

/-! ## Claim theorems: the chain engine -/

/-- Claim C1: for every resolved middleware stack `m1..mn` and every
terminal step (here: an arbitrary matched handler), one call to
`Router.handle` emits the middleware "before" portions in registration
order `m1..mn`, then the terminal step's own events, then the "after"
portions in reverse order `mn..m1`; each after-portion resumes only once
every deeper middleware and the terminal step (which must complete
successfully) have completed. -/
theorem claim1_onion (w : World) (n : Router) (req : Request)
    (ms : List (Nat × (Locals → Locals))) (store : RouteStore) (rps : Params) (resp : Rsp)
    (hfind : tableFind (w.routeTables.getD n.routeTRef []) req.method (reqPath req) =
      some (store, rps))
    (hstack : w.stackArrays.getD store.stackRef [] = ms.map tagMwP)
    (hok : (store.handler (handlerCtx req store rps (foldLocals ms []))).2 = .ok resp) :
    Router.handle w n req =
      (befores ms ++
        (store.handler (handlerCtx req store rps (foldLocals ms []))).1 ++
        aftersRev ms,
       .ok resp) := by
  rw [handle_route_match w n req store rps _ hfind rfl, hstack]
  have h1 := runChain_tag
    (mwCtx req store (tableFind (w.stackTables.getD n.stackTRef []) "GET" (reqPath req)) [])
    (fun out => store.handler (handlerCtx req store rps out))
    ms [] []
  simp only [List.append_nil] at h1
  rw [h1]
  simp only [runChain]
  rw [hok]

theorem claim1_onion_witness :
    Router.handle c1World.1 c1World.2 ⟨"GET", "http://x.y/hello"⟩ =
      ([.before 1, .before 2,
        .handlerObs [("b", "2"), ("a", "1")] (some "/hello") [],
        .after 2, .after 1], .ok ⟨200, []⟩) :=
  (claim1_onion c1World.1 c1World.2 ⟨"GET", "http://x.y/hello"⟩
    [(1, fun l => ("a", "1") :: l), (2, fun l => ("b", "2") :: l)]
    ⟨"/hello", 1, obsHandler ⟨200, []⟩⟩ [] ⟨200, []⟩
    (by rfl) (by rfl) (by rfl)).trans (by decide)

/-- Claim C2: if the k-th middleware of the resolved stack returns or
throws without ever invoking `next` (its action has a `stopOutcome`),
then no deeper middleware and no route handler contributes to the
dispatch (the suffix of the stack and the handler are arbitrary and
absent from the result), and that middleware's response or exception is
exactly the result of `Router.handle`; the outer middleware still resume
their after-portions on a returned response but not on an exception. -/
theorem claim2_short_circuit (w : World) (n : Router) (req : Request)
    (ms : List (Nat × (Locals → Locals))) (store : RouteStore) (rps : Params)
    (sf : Option (Nat × Params)) (m0 : Mw) (suffix : List Mw)
    (res : Except Err Rsp)
    (hfind : tableFind (w.routeTables.getD n.routeTRef []) req.method (reqPath req) =
      some (store, rps))
    (hsf : tableFind (w.stackTables.getD n.stackTRef []) "GET" (reqPath req) = sf)
    (hstack : w.stackArrays.getD store.stackRef [] = ms.map tagMwP ++ m0 :: suffix)
    (hstop : stopOutcome (m0.act (mwCtx req store sf (foldLocals ms []))) = some res) :
    Router.handle w n req =
      (befores ms ++ m0.entry (mwCtx req store sf (foldLocals ms [])) ++
        (match res with | .ok _ => aftersRev ms | .error _ => []),
       res) := by
  rw [handle_route_match w n req store rps sf hfind hsf, hstack]
  rw [runChain_tag]
  rw [runChain_stop _ _ m0 suffix (foldLocals ms []) res
    (by rw [mwCtx_locals]; exact hstop)]
  rw [mwCtx_locals]
  cases res <;> simp

theorem claim2_short_circuit_witness :
    Router.handle c2World.1 c2World.2 ⟨"GET", "http://x.y/hello"⟩ =
      ([.before 1, .before 2, .after 1], .ok ⟨403, []⟩) :=
  (claim2_short_circuit c2World.1 c2World.2 ⟨"GET", "http://x.y/hello"⟩
    [(1, fun l => ("a", "1") :: l)]
    ⟨"/hello", 1, obsHandler ⟨200, []⟩⟩ [] (some (0, [("*", "hello")]))
    (haltMw 2 ⟨403, []⟩) [tagMw 3 (fun l => ("c", "3") :: l)]
    (.ok ⟨403, []⟩)
    (by rfl) (by rfl) (by rfl) (by rfl)).trans (by decide)

/-- Claim C3: the chain starts with empty locals, and every locals value
passed to `next` is observed unchanged by the immediately following
middleware (and, past the end of the stack, by the terminal handler):
the trace of a chain of locals-observing middleware records exactly the
chain of passed values starting from `[]`, and the handler receives the
final fold — the engine never merges or alters the value. -/
theorem claim3_locals (w : World) (n : Router) (req : Request)
    (ms : List (Nat × (Locals → Locals))) (store : RouteStore) (rps : Params)
    (hfind : tableFind (w.routeTables.getD n.routeTRef []) req.method (reqPath req) =
      some (store, rps))
    (hstack : w.stackArrays.getD store.stackRef [] = ms.map obsMwP) :
    Router.handle w n req =
      (obsTrace ms [] ++
        (store.handler (handlerCtx req store rps (foldLocals ms []))).1,
       (store.handler (handlerCtx req store rps (foldLocals ms []))).2) := by
  rw [handle_route_match w n req store rps _ hfind rfl, hstack, runChain_obs]

theorem claim3_locals_witness :
    Router.handle c3World.1 c3World.2 ⟨"GET", "http://x.y/hello"⟩ =
      ([.obs 1 [], .obs 2 [("a", "1")],
        .handlerObs [("b", "2"), ("a", "1")] (some "/hello") []], .ok ⟨200, []⟩) :=
  (claim3_locals c3World.1 c3World.2 ⟨"GET", "http://x.y/hello"⟩
    [(1, fun l => ("a", "1") :: l), (2, fun l => ("b", "2") :: l)]
    ⟨"/hello", 1, obsHandler ⟨200, []⟩⟩ []
    (by rfl) (by rfl)).trans (by decide)

/-- Claim C7: a request matching no route but falling under a node's
base path still executes that node's middleware stack (the base-path
fallback stack), and the terminal step returns the fixed 404 response
with body `{ message: "Not found" }`. -/
theorem claim7_unmatched (w : World) (n : Router) (req : Request)
    (ms : List (Nat × (Locals → Locals))) (sref : Nat) (sps : Params)
    (hfind : tableFind (w.routeTables.getD n.routeTRef []) req.method (reqPath req) = none)
    (hsf : tableFind (w.stackTables.getD n.stackTRef []) "GET" (reqPath req) =
      some (sref, sps))
    (hstack : w.stackArrays.getD sref [] = ms.map tagMwP) :
    Router.handle w n req = (befores ms ++ aftersRev ms, .ok notFoundResponse) := by
  rw [handle_no_route w n req sref sps hfind hsf, hstack]
  have h1 := runChain_tag (fallbackCtx req sps [])
    (fun _ => ([], .ok notFoundResponse)) ms [] []
  simp only [List.append_nil] at h1
  rw [h1]
  simp [runChain]

theorem claim7_unmatched_witness :
    Router.handle c7World.1 c7World.2 ⟨"GET", "http://x.y/nope"⟩ =
      ([.before 1, .after 1], .ok notFoundResponse) :=
  (claim7_unmatched c7World.1 c7World.2 ⟨"GET", "http://x.y/nope"⟩
    [(1, fun l => ("a", "1") :: l)] 0 [("*", "nope")]
    (by rfl) (by rfl) (by rfl)).trans (by decide)

/-- Claim C4: exceptions propagate out of `Router.handle` unmodified —
`handle` performs no catching, logging or error-to-response translation
and never fabricates a 500.  Part 1: a middleware throwing (with every
outer middleware transparent) makes `handle`'s result exactly that
exception, with no after-portions run.  Part 2: the same for a throwing
route handler.  Part 3: recovery happens exactly when a middleware such
as `handleErrors` wraps its `next` call in a try/catch — then `handle`
returns the error handler's response. -/
theorem claim4_error_propagation :
    (∀ (w : World) (n : Router) (req : Request) (ms : List (Nat × (Locals → Locals)))
      (store : RouteStore) (rps : Params) (id : Nat) (e : String) (suffix : List Mw),
      tableFind (w.routeTables.getD n.routeTRef []) req.method (reqPath req) =
        some (store, rps) →
      w.stackArrays.getD store.stackRef [] = ms.map tagMwP ++ raiseMw id e :: suffix →
      Router.handle w n req = (befores ms ++ [.before id], .error (.thrown e))) ∧
    (∀ (w : World) (n : Router) (req : Request) (ms : List (Nat × (Locals → Locals)))
      (store : RouteStore) (rps : Params) (er : Err),
      tableFind (w.routeTables.getD n.routeTRef []) req.method (reqPath req) =
        some (store, rps) →
      w.stackArrays.getD store.stackRef [] = ms.map tagMwP →
      (store.handler (handlerCtx req store rps (foldLocals ms []))).2 = .error er →
      Router.handle w n req =
        (befores ms ++ (store.handler (handlerCtx req store rps (foldLocals ms []))).1,
         .error er)) ∧
    (∀ (w : World) (n : Router) (req : Request) (ms : List (Nat × (Locals → Locals)))
      (store : RouteStore) (rps : Params) (sf : Option (Nat × Params))
      (hnd : Ctx → Err → Rsp) (id : Nat) (e : String) (suffix : List Mw),
      tableFind (w.routeTables.getD n.routeTRef []) req.method (reqPath req) =
        some (store, rps) →
      tableFind (w.stackTables.getD n.stackTRef []) "GET" (reqPath req) = sf →
      w.stackArrays.getD store.stackRef [] =
        handleErrors hnd :: (ms.map tagMwP ++ raiseMw id e :: suffix) →
      Router.handle w n req =
        (befores ms ++ [.before id], .ok (hnd (mwCtx req store sf []) (.thrown e)))) := by
  refine ⟨?_, ?_, ?_⟩
  · intro w n req ms store rps id e suffix hfind hstack
    rw [handle_route_match w n req store rps _ hfind rfl, hstack]
    rw [runChain_tag]
    rw [runChain_stop _ _ (raiseMw id e) suffix (foldLocals ms []) (.error (.thrown e)) rfl]
    simp [raiseMw]
  · intro w n req ms store rps er hfind hstack herr
    rw [handle_route_match w n req store rps _ hfind rfl, hstack]
    have h1 := runChain_tag
      (mwCtx req store (tableFind (w.stackTables.getD n.stackTRef []) "GET" (reqPath req)) [])
      (fun out => store.handler (handlerCtx req store rps out))
      ms [] []
    simp only [List.append_nil] at h1
    rw [h1]
    simp only [runChain]
    rw [herr]
  · intro w n req ms store rps sf hnd id e suffix hfind hsf hstack
    rw [handle_route_match w n req store rps sf hfind hsf, hstack]
    rw [runChain_handleErrors]
    rw [runChain_tag]
    rw [runChain_stop _ _ (raiseMw id e) suffix (foldLocals ms []) (.error (.thrown e)) rfl]
    rw [mwCtx_locals]
    simp [raiseMw, mwCtx]

theorem claim4_error_propagation_witness :
    Router.handle c4aWorld.1 c4aWorld.2 ⟨"GET", "http://x.y/hello"⟩ =
      ([.before 1, .before 2], .error (.thrown "boom")) ∧
    Router.handle c4bWorld.1 c4bWorld.2 ⟨"GET", "http://x.y/hello"⟩ =
      ([.before 1], .error (.thrown "bang")) ∧
    Router.handle c4cWorld.1 c4cWorld.2 ⟨"GET", "http://x.y/hello"⟩ =
      ([.before 1, .before 2], .ok ⟨500, [("error", "caught")]⟩) :=
  ⟨(claim4_error_propagation.1 c4aWorld.1 c4aWorld.2 ⟨"GET", "http://x.y/hello"⟩
      [(1, fun l => ("a", "1") :: l)] ⟨"/hello", 1, obsHandler ⟨200, []⟩⟩ []
      2 "boom" [] (by rfl) (by rfl)).trans (by decide),
   (claim4_error_propagation.2.1 c4bWorld.1 c4bWorld.2 ⟨"GET", "http://x.y/hello"⟩
      [(1, fun l => ("a", "1") :: l)] ⟨"/hello", 1, raiseHandler "bang"⟩ []
      (.thrown "bang") (by rfl) (by rfl) (by rfl)).trans (by decide),
   (claim4_error_propagation.2.2 c4cWorld.1 c4cWorld.2 ⟨"GET", "http://x.y/hello"⟩
      [(1, fun l => ("a", "1") :: l)] ⟨"/hello", 1, obsHandler ⟨200, []⟩⟩ []
      (some (0, [("*", "hello")])) (fun _ _ => ⟨500, [("error", "caught")]⟩)
      2 "boom" [] (by rfl) (by rfl) (by rfl)).trans (by decide)⟩

/-- Claim C8: every middleware in a dispatch observes `parameters` equal
to the base-path match's parameters (or `[]` when no base-path match
exists) and `matchedRoute` equal to the matched route's original pattern
(or null when no route matched); the route match's fully-specific
parameters are substituted into the context only when the terminal step
invokes the matched handler.  Part 1: route and base-path both matched.
Part 2: route matched, no base-path match.  Part 3: no route match. -/
theorem claim8_parameters :
    (∀ (w : World) (n : Router) (req : Request) (ids : List Nat)
      (store : RouteStore) (rps : Params) (sref : Nat) (sps : Params),
      tableFind (w.routeTables.getD n.routeTRef []) req.method (reqPath req) =
        some (store, rps) →
      tableFind (w.stackTables.getD n.stackTRef []) "GET" (reqPath req) =
        some (sref, sps) →
      w.stackArrays.getD store.stackRef [] = ids.map ctxMw →
      Router.handle w n req =
        (ids.map (fun id => .obsCtx id (some store.matchingRoute) sps) ++
          (store.handler (handlerCtx req store rps [])).1,
         (store.handler (handlerCtx req store rps [])).2)) ∧
    (∀ (w : World) (n : Router) (req : Request) (ids : List Nat)
      (store : RouteStore) (rps : Params),
      tableFind (w.routeTables.getD n.routeTRef []) req.method (reqPath req) =
        some (store, rps) →
      tableFind (w.stackTables.getD n.stackTRef []) "GET" (reqPath req) = none →
      w.stackArrays.getD store.stackRef [] = ids.map ctxMw →
      Router.handle w n req =
        (ids.map (fun id => .obsCtx id (some store.matchingRoute) []) ++
          (store.handler (handlerCtx req store rps [])).1,
         (store.handler (handlerCtx req store rps [])).2)) ∧
    (∀ (w : World) (n : Router) (req : Request) (ids : List Nat)
      (sref : Nat) (sps : Params),
      tableFind (w.routeTables.getD n.routeTRef []) req.method (reqPath req) = none →
      tableFind (w.stackTables.getD n.stackTRef []) "GET" (reqPath req) =
        some (sref, sps) →
      w.stackArrays.getD sref [] = ids.map ctxMw →
      Router.handle w n req =
        (ids.map (fun id => .obsCtx id none sps), .ok notFoundResponse)) := by
  refine ⟨?_, ?_, ?_⟩
  · intro w n req ids store rps sref sps hfind hsf hstack
    rw [handle_route_match w n req store rps _ hfind hsf, hstack, runChain_ctx]
    simp [mwCtx]
  · intro w n req ids store rps hfind hsf hstack
    rw [handle_route_match w n req store rps _ hfind hsf, hstack, runChain_ctx]
    simp [mwCtx]
  · intro w n req ids sref sps hfind hsf hstack
    rw [handle_no_route w n req sref sps hfind hsf, hstack, runChain_ctx]
    simp [fallbackCtx]

theorem claim8_parameters_witness :
    Router.handle c8World.1 c8World.2 ⟨"GET", "http://x.y/u/7"⟩ =
      ([.obsCtx 1 (some "/u/:id") [("*", "u/7")],
        .obsCtx 2 (some "/u/:id") [("*", "u/7")],
        .handlerObs [] (some "/u/:id") [("id", "7")]], .ok ⟨200, []⟩) ∧
    Router.handle c8bWorld ⟨"", 0, 0, 0⟩ ⟨"GET", "http://x.y/hello"⟩ =
      ([.obsCtx 1 (some "/hello") [],
        .handlerObs [] (some "/hello") []], .ok ⟨200, []⟩) ∧
    Router.handle c8World.1 c8World.2 ⟨"GET", "http://x.y/nope"⟩ =
      ([.obsCtx 1 none [("*", "nope")], .obsCtx 2 none [("*", "nope")]],
       .ok notFoundResponse) :=
  ⟨(claim8_parameters.1 c8World.1 c8World.2 ⟨"GET", "http://x.y/u/7"⟩ [1, 2]
      ⟨"/u/:id", 1, obsHandler ⟨200, []⟩⟩ [("id", "7")] 0 [("*", "u/7")]
      (by rfl) (by rfl) (by rfl)).trans (by decide),
   (claim8_parameters.2.1 c8bWorld ⟨"", 0, 0, 0⟩ ⟨"GET", "http://x.y/hello"⟩ [1]
      ⟨"/hello", 0, obsHandler ⟨200, []⟩⟩ []
      (by rfl) (by rfl) (by rfl)).trans (by decide),
   (claim8_parameters.2.2 c8World.1 c8World.2 ⟨"GET", "http://x.y/nope"⟩ [1, 2]
      0 [("*", "nope")] (by rfl) (by rfl) (by rfl)).trans (by decide)⟩

/-! ## Path and matcher lemmas -/

theorem splitChar_ne_nil (sep : Char) (l : List Char) : splitChar sep l ≠ [] := by
  cases l with
  | nil => simp [splitChar]
  | cons c rest =>
    simp only [splitChar]
    rcases h : splitChar sep rest with _ | ⟨s, ss⟩
    · simp
    · by_cases hc : c = sep <;> simp [hc]

theorem joinChar_splitChar (sep : Char) (l : List Char) :
    joinChar sep (splitChar sep l) = l := by
  induction l with
  | nil => rfl
  | cons c rest ih =>
    simp only [splitChar]
    rcases h : splitChar sep rest with _ | ⟨s, ss⟩
    · exact absurd h (splitChar_ne_nil sep rest)
    · rw [h] at ih
      by_cases hc : c = sep
      · subst hc
        simpa [joinChar] using ih
      · simp only [if_neg hc]
        cases ss with
        | nil => simpa [joinChar] using ih
        | cons s2 ss2 => simpa [joinChar] using ih

theorem string_toList_inj {p q : String} (h : p.toList = q.toList) : p = q := by
  cases p with
  | mk d1 =>
    cases q with
    | mk d2 =>
      simp only [String.toList] at h
      exact congrArg String.mk h

theorem segs_inj {p q : String} (h : segs p = segs q) : p = q := by
  have h2 : (segs p).map String.toList = (segs q).map String.toList := by rw [h]
  simp only [segs, List.map_map] at h2
  have hid : ∀ l : List (List Char),
      (l.map (fun x => String.toList (String.mk x))) = l := by
    intro l
    simp [String.toList]
  have h3 : splitChar '/' p.toList = splitChar '/' q.toList := by
    have hp := hid (splitChar '/' p.toList)
    have hq := hid (splitChar '/' q.toList)
    rw [Function.comp_def] at h2
    calc splitChar '/' p.toList = _ := (hp).symm
      _ = _ := h2
      _ = splitChar '/' q.toList := hq
  have h4 : joinChar '/' (splitChar '/' p.toList) = joinChar '/' (splitChar '/' q.toList) := by
    rw [h3]
  rw [joinChar_splitChar, joinChar_splitChar] at h4
  exact string_toList_inj h4

theorem collapseSlashes_head (x : List Char) :
    ∃ u, collapseSlashes ('/' :: x) = '/' :: u := by
  induction x with
  | nil => exact ⟨[], rfl⟩
  | cons c rest ih =>
    by_cases hc : c = '/'
    · subst hc
      simp only [collapseSlashes, and_self, if_pos]
      exact ih
    · simp only [collapseSlashes]
      rw [if_neg (by simp [hc])]
      exact ⟨collapseSlashes (c :: rest), rfl⟩

theorem matchSegs_nil_cons (s : String) (ss : List String) :
    matchSegs [] (s :: ss) = none := rfl

theorem matchSegs_cons_nil (p : String) (ps : List String) (h : ¬(p = "*" ∧ ps = [])) :
    matchSegs (p :: ps) [] = none := by
  rw [matchSegs.eq_def]
  rcases ps with _ | ⟨q, qt⟩
  · simp only [not_and_or] at h
    rcases h with h | h
    · simp [h]
    · simp at h
  · simp

theorem matchSegs_star (rest : List String) :
    matchSegs ["*"] rest =
      some [("*", String.mk (joinChar '/' (rest.map String.toList)))] := by
  cases rest <;> rfl

theorem matchSegs_cons_cons (p : String) (ps : List String) (s : String) (ss : List String)
    (h : ¬(p = "*" ∧ ps = [])) :
    matchSegs (p :: ps) (s :: ss) =
    (if isParamSeg p then
      if s = "" then none
      else (matchSegs ps ss).map (fun binds => (paramName p, s) :: binds)
    else if p = s then matchSegs ps ss
    else none) := by
  rw [matchSegs.eq_def]
  rcases ps with _ | ⟨q, qt⟩
  · simp only [not_and_or] at h
    rcases h with h | h
    · simp [h]
    · simp at h
  · simp

theorem patScore_eq (p : String) :
    patScore p = (if (segs p).contains "*" then 0 else 1, litCount (segs p)) := by
  simp [patScore, litCount]

theorem litCount_cons_param (p : String) (l : List String) (hp : isParamSeg p = true) :
    litCount (p :: l) = litCount l := by
  simp [litCount, List.filter_cons, hp]

theorem litCount_cons_lit (p : String) (l : List String)
    (hp : isParamSeg p = false) (hs : p ≠ "*") :
    litCount (p :: l) = litCount l + 1 := by
  simp [litCount, List.filter_cons, hp, hs]

theorem litCount_all_lit (l : List String)
    (h : ∀ s ∈ l, isParamSeg s = false ∧ s ≠ "*") : litCount l = l.length := by
  induction l with
  | nil => rfl
  | cons a t ih =>
    have ha := h a (by simp)
    rw [litCount_cons_lit a t ha.1 ha.2, ih (fun s hs => h s (by simp [hs]))]
    simp

theorem matchSegs_literal_self (l : List String)
    (h : ∀ s ∈ l, isParamSeg s = false ∧ s ≠ "*") : matchSegs l l = some [] := by
  induction l with
  | nil => rfl
  | cons a t ih =>
    have ha := h a (by simp)
    have ht := ih (fun s hs => h s (by simp [hs]))
    rw [matchSegs_cons_cons a t a t (fun hx => ha.2 hx.1)]
    simp [ha.1, ht]

theorem matchSegs_litCount_le (pat : List String) :
    ∀ (path : List String) (ps : Params),
    matchSegs pat path = some ps → litCount pat ≤ path.length := by
  induction pat with
  | nil =>
    intro path ps h
    cases path with
    | nil => simp [litCount]
    | cons s ss => simp [matchSegs_nil_cons] at h
  | cons p pt ih =>
    intro path ps h
    by_cases hstar : p = "*" ∧ pt = []
    · rcases hstar with ⟨h1, h2⟩
      subst h1; subst h2
      simp [litCount, isParamSeg]
    · cases path with
      | nil => rw [matchSegs_cons_nil p pt hstar] at h; exact absurd h (by simp)
      | cons s ss =>
        rw [matchSegs_cons_cons p pt s ss hstar] at h
        split at h
        · rename_i hp
          split at h
          · exact absurd h (by simp)
          · rcases Option.map_eq_some'.mp h with ⟨binds, hb, _⟩
            have := ih ss binds hb
            rw [litCount_cons_param p pt hp]
            simp only [List.length_cons]
            omega
        · rename_i hp
          split at h
          · have := ih ss ps h
            by_cases hps : p = "*"
            · rw [litCount, List.filter_cons]
              simp only [hps, Bool.not_eq_true]
              simp only [List.length_cons]
              have hcount : litCount pt ≤ ss.length := this
              simp [litCount] at hcount ⊢
              omega
            · rw [litCount_cons_lit p pt (by simpa using hp) hps]
              simp only [List.length_cons]
              omega
          · exact absurd h (by simp)

theorem matchSegs_exact (pat : List String) :
    ∀ (path : List String) (ps : Params),
    matchSegs pat path = some ps → "*" ∉ pat → litCount pat = path.length →
    pat = path := by
  induction pat with
  | nil =>
    intro path ps h _ hlen
    cases path with
    | nil => rfl
    | cons s ss => simp [matchSegs_nil_cons] at h
  | cons p pt ih =>
    intro path ps h hnostar hlen
    have hpstar : p ≠ "*" := fun hx => hnostar (by simp [hx])
    have hstar : ¬(p = "*" ∧ pt = []) := fun hx => hpstar hx.1
    cases path with
    | nil => rw [matchSegs_cons_nil p pt hstar] at h; exact absurd h (by simp)
    | cons s ss =>
      rw [matchSegs_cons_cons p pt s ss hstar] at h
      split at h
      · rename_i hp
        split at h
        · exact absurd h (by simp)
        · rcases Option.map_eq_some'.mp h with ⟨binds, hb, _⟩
          have hle := matchSegs_litCount_le pt ss binds hb
          rw [litCount_cons_param p pt hp] at hlen
          simp only [List.length_cons] at hlen
          omega
      · rename_i hp
        split at h
        · rename_i hps
          rw [litCount_cons_lit p pt (by simpa using hp) hpstar] at hlen
          simp only [List.length_cons] at hlen
          have hpt := ih ss ps h (fun hx => hnostar (by simp [hx])) (by omega)
          rw [hps, hpt]
        · exact absurd h (by simp)

theorem scoreGt_irrefl (a : Nat × Nat) : scoreGt a a = false := by
  simp [scoreGt]

theorem scoreGt_asymm (a b : Nat × Nat) (h : scoreGt a b = true) : scoreGt b a = false := by
  simp only [scoreGt, Bool.or_eq_true, Bool.and_eq_true, decide_eq_true_eq,
    Bool.or_eq_false_iff, Bool.and_eq_false_iff, decide_eq_false_iff_not] at h ⊢
  omega

theorem pickBest_mem {α : Type} (l : List (Entry α × Params)) (c : Entry α × Params)
    (h : pickBest l = some c) : c ∈ l := by
  induction l generalizing c with
  | nil => simp [pickBest] at h
  | cons a t ih =>
    simp only [pickBest] at h
    rcases hp : pickBest t with _ | b <;> rw [hp] at h
    · simp only [pickBetter] at h
      simp at h
      simp [h]
    · simp only [pickBetter] at h
      split at h
      · have hb := ih b hp
        simp at h
        rw [← h]
        simp [hb]
      · simp at h
        simp [h]

theorem pickBest_spec {α : Type} (l : List (Entry α × Params)) (c : Entry α × Params)
    (hc : c ∈ l)
    (hbest : ∀ c2 ∈ l, c2 = c ∨ scoreGt (patScore c.1.pattern) (patScore c2.1.pattern)) :
    pickBest l = some c := by
  induction l with
  | nil => simp at hc
  | cons a t ih =>
    rcases List.mem_cons.mp hc with hca | hct
    · subst hca
      simp only [pickBest]
      rcases hp : pickBest t with _ | b
      · rfl
      · have hbt := hbest b (List.mem_cons_of_mem _ (pickBest_mem t b hp))
        simp only [pickBetter]
        rcases hbt with hbc | hgt
        · subst hbc
          split <;> rfl
        · simp [scoreGt_asymm _ _ hgt]
    · have hpt : pickBest t = some c :=
        ih hct (fun c2 hc2 => hbest c2 (List.mem_cons_of_mem _ hc2))
      simp only [pickBest, hpt, pickBetter]
      rcases hbest a (by simp) with hac | hgt
      · subst hac
        split <;> rfl
      · simp [hgt]

theorem pickBest_cons {α : Type} (x : Entry α × Params) (xs : List (Entry α × Params)) :
    ∃ b, pickBest (x :: xs) = some b := by
  simp only [pickBest]
  rcases pickBest xs with _ | b
  · exact ⟨x, rfl⟩
  · simp only [pickBetter]
    split
    · exact ⟨b, rfl⟩
    · exact ⟨x, rfl⟩

theorem tableFind_isSome {α : Type} (t : Table α) (m path : String)
    (e : Entry α) (ps : Params) (he : e ∈ t) (hm : e.method = m)
    (hmatch : matchSegs (segs e.pattern) (segs path) = some ps) :
    ∃ r, tableFind t m path = some r := by
  have hc : (e, ps) ∈ t.filterMap (fun e2 =>
      if e2.method = m then
        (matchSegs (segs e2.pattern) (segs path)).map (fun x => (e2, x))
      else none) := by
    refine List.mem_filterMap.mpr ⟨e, he, ?_⟩
    rw [if_pos hm, hmatch]
    rfl
  rcases hcands : t.filterMap (fun e2 =>
      if e2.method = m then
        (matchSegs (segs e2.pattern) (segs path)).map (fun x => (e2, x))
      else none) with _ | ⟨x, xs⟩
  · rw [hcands] at hc
    simp at hc
  · rcases pickBest_cons x xs with ⟨b, hb⟩
    exact ⟨(b.1.store, b.2), by simp [tableFind, hcands, hb]⟩

theorem tableFind_exact {α : Type} (t : Table α) (m path : String) (e : Entry α)
    (hkeys : keysOK t) (he : e ∈ t) (hm : e.method = m) (hp : e.pattern = path)
    (hlit : ∀ s ∈ segs path, isParamSeg s = false ∧ s ≠ "*") :
    tableFind t m path = some (e.store, []) := by
  have hmatch : matchSegs (segs e.pattern) (segs path) = some [] := by
    rw [hp]
    exact matchSegs_literal_self _ hlit
  have hnostar : "*" ∉ segs path := fun hx => (hlit _ hx).2 rfl
  have hc : (e, ([] : Params)) ∈ t.filterMap (fun e2 =>
      if e2.method = m then
        (matchSegs (segs e2.pattern) (segs path)).map (fun x => (e2, x))
      else none) := by
    refine List.mem_filterMap.mpr ⟨e, he, ?_⟩
    rw [if_pos hm, hmatch]
    rfl
  have hbest : ∀ c2 ∈ t.filterMap (fun e2 =>
      if e2.method = m then
        (matchSegs (segs e2.pattern) (segs path)).map (fun x => (e2, x))
      else none),
      c2 = (e, ([] : Params)) ∨
        scoreGt (patScore (e, ([] : Params)).1.pattern) (patScore c2.1.pattern) := by
    intro c2 hc2
    rcases List.mem_filterMap.mp hc2 with ⟨e2, he2, hf⟩
    by_cases hm2 : e2.method = m
    · rw [if_pos hm2] at hf
      rcases Option.map_eq_some'.mp hf with ⟨ps2, hps2, hc2eq⟩
      by_cases heq : e2 = e
      · subst heq
        rw [hmatch] at hps2
        left
        rw [← hc2eq]
        simp at hps2
        rw [hps2]
      · right
        have hkey : e2.pattern ≠ path := by
          intro hpat
          exact heq (List.inj_on_of_nodup_map hkeys he2 he
            (by rw [hm2, hm, hpat, hp]))
        rw [← hc2eq]
        simp only [hp, patScore_eq]
        have hpathstar : (segs path).contains "*" = false := by
          rcases hh : (segs path).contains "*" with _ | _
          · rfl
          · exact absurd (List.elem_iff.mp hh) hnostar
        rw [hpathstar]
        have hpathlen : litCount (segs path) = (segs path).length :=
          litCount_all_lit _ hlit
        rcases hstar2 : (segs e2.pattern).contains "*" with _ | _
        · have hle := matchSegs_litCount_le (segs e2.pattern) (segs path) ps2 hps2
          have hnotmem2 : "*" ∉ segs e2.pattern := by
            intro hx
            have hct : (segs e2.pattern).contains "*" = true := List.elem_iff.mpr hx
            rw [hstar2] at hct
            cases hct
          have hlt : litCount (segs e2.pattern) < (segs path).length := by
            rcases Nat.lt_or_ge (litCount (segs e2.pattern)) ((segs path).length) with hl | hg
            · exact hl
            · have heqn : litCount (segs e2.pattern) = (segs path).length := by omega
              have heqsegs := matchSegs_exact (segs e2.pattern) (segs path) ps2 hps2
                hnotmem2 heqn
              exact absurd (segs_inj heqsegs) hkey
          simp [scoreGt, hpathlen]
          omega
        · simp [scoreGt]
    · rw [if_neg hm2] at hf
      simp at hf
  have := pickBest_spec _ _ hc hbest
  simp [tableFind, this]

theorem reverse_dropWhile_append (pr : Char → Bool) (m : List Char) (a : Char) :
    ((m ++ [a]).dropWhile pr).reverse = [] ∨
    ∃ t, ((m ++ [a]).dropWhile pr).reverse = a :: t := by
  induction m with
  | nil =>
    by_cases hpa : pr a = true
    · left
      simp [List.dropWhile_cons, hpa]
    · right
      refine ⟨[], ?_⟩
      simp [List.dropWhile_cons, hpa]
  | cons x xs ih =>
    by_cases hpx : pr x = true
    · simpa [List.dropWhile_cons, hpx] using ih
    · right
      refine ⟨xs.reverse ++ [x], ?_⟩
      simp [List.dropWhile_cons, hpx]

theorem dropTrailingSlashes_cons (a : Char) (u : List Char) :
    dropTrailingSlashes (a :: u) = [] ∨ ∃ t, dropTrailingSlashes (a :: u) = a :: t := by
  unfold dropTrailingSlashes
  rw [show (a :: u).reverse = u.reverse ++ [a] by simp]
  exact reverse_dropWhile_append _ u.reverse a

theorem normalizePath_toList (p : String) :
    ∃ t, (normalizePath p).toList = '/' :: t := by
  simp only [normalizePath]
  rcases collapseSlashes_head p.toList with ⟨u, hu⟩
  rw [hu]
  rcases dropTrailingSlashes_cons '/' u with h0 | ⟨t, ht⟩
  · rw [h0]
    exact ⟨[], rfl⟩
  · rw [ht, if_neg (by simp)]
    exact ⟨t, rfl⟩

theorem segs_normalizePath (p : String) :
    ∃ rest, segs (normalizePath p) = "" :: rest := by
  rcases normalizePath_toList p with ⟨t, ht⟩
  unfold segs
  rw [ht]
  have hsplit : splitChar '/' ('/' :: t) = [] :: splitChar '/' t := by
    simp only [splitChar]
    rcases h : splitChar '/' t with _ | ⟨s, ss⟩
    · exact absurd h (splitChar_ne_nil _ _)
    · simp
  rw [hsplit]
  exact ⟨(splitChar '/' t).map (fun l => String.mk l), by simp⟩

theorem tableFind_catchAll {α : Type} (t : Table α) (e : Entry α) (he : e ∈ t)
    (hm : e.method = "GET") (hp : e.pattern = "/*") (path : String) :
    ∃ r, tableFind t "GET" (normalizePath path) = some r := by
  rcases segs_normalizePath path with ⟨rest, hsegs⟩
  refine tableFind_isSome t "GET" (normalizePath path) e
    [("*", String.mk (joinChar '/' (rest.map String.toList)))] he hm ?_
  rw [hp, hsegs, show segs "/*" = ["", "*"] from by decide]
  rw [matchSegs_cons_cons "" ["*"] "" rest (by simp)]
  rw [if_neg (by simp [isParamSeg]), if_pos rfl, matchSegs_star]

/-! ## Build invariants

`BuildInv w root ns` collects the heap invariants maintained by every builder
operation, for the root node and the list `ns` of nodes created by
`route` calls. -/

theorem inv_use (w : World) (root : Router) (ns : List Router) (n : Router) (m : Mw)
    (hInv : BuildInv w root ns) :
    BuildInv (Router.use w n m) root ns := by
  refine ⟨?_, ?_, ?_, hInv.nodesNodup, hInv.sameST, hInv.sameRT, ?_, hInv.routesDisj, ?_⟩
  · simpa [Router.use] using hInv.stLt
  · simpa [Router.use] using hInv.rtLt
  · intro n2 hn2
    simpa [Router.use] using hInv.nodesLt n2 hn2
  · intro e he
    simp only [Router.use] at he ⊢
    simpa using hInv.routesLt e he
  · simpa [Router.use] using hInv.catchAll

theorem inv_addRoute (w : World) (root : Router) (ns : List Router) (n : Router)
    (method path : String) (fn : Handler)
    (hInv : BuildInv w root ns) (hn : n ∈ root :: ns) :
    BuildInv (Router.addRoute w n method path fn) root ns := by
  have hrt : n.routeTRef = root.routeTRef := hInv.sameRT n hn
  have hgetD : (Router.addRoute w n method path fn).routeTables.getD root.routeTRef [] =
      tableAdd (w.routeTables.getD root.routeTRef []) method (normalizePath path)
        ⟨path, w.stackArrays.length, fn⟩ := by
    simp only [Router.addRoute, hrt]
    exact getD_set_self _ _ _ _ hInv.rtLt
  refine ⟨?_, ?_, ?_, hInv.nodesNodup, hInv.sameST, hInv.sameRT, ?_, ?_, ?_⟩
  · simpa [Router.addRoute] using hInv.stLt
  · simpa [Router.addRoute] using hInv.rtLt
  · intro n2 hn2
    have := hInv.nodesLt n2 hn2
    simp only [Router.addRoute, List.length_append, List.length_singleton]
    omega
  · intro e he
    rw [hgetD] at he
    simp only [Router.addRoute, List.length_append, List.length_singleton]
    rcases tableAdd_mem _ _ _ _ _ he with ⟨_, _, hstore⟩ | ⟨hold, _⟩
    · rw [hstore]
      simp
    · have := hInv.routesLt e hold
      omega
  · intro e he n2 hn2
    rw [hgetD] at he
    rcases tableAdd_mem _ _ _ _ _ he with ⟨_, _, hstore⟩ | ⟨hold, _⟩
    · rw [hstore]
      have := hInv.nodesLt n2 hn2
      simp only []
      omega
    · exact hInv.routesDisj e hold n2 hn2
  · simpa [Router.addRoute] using hInv.catchAll

theorem inv_route (w : World) (root : Router) (ns : List Router) (n : Router)
    (path : String)
    (hInv : BuildInv w root ns) (hn : n ∈ root :: ns) :
    BuildInv (Router.route w n path).1 root (ns ++ [(Router.route w n path).2]) := by
  have hst : n.stackTRef = root.stackTRef := hInv.sameST n hn
  have hrt : n.routeTRef = root.routeTRef := hInv.sameRT n hn
  have hchild : (Router.route w n path).2 =
      ⟨n.basePath ++ path, w.stackArrays.length, n.stackTRef, n.routeTRef⟩ := rfl
  have hmem_eq : ∀ n2, n2 ∈ root :: (ns ++ [(Router.route w n path).2]) ↔
      n2 ∈ (root :: ns) ∨ n2 = (Router.route w n path).2 := by
    intro n2
    simp [List.mem_append, List.mem_cons, or_assoc]
  refine ⟨?_, ?_, ?_, ?_, ?_, ?_, ?_, ?_, ?_⟩
  · simpa [Router.route, routerCtor] using hInv.stLt
  · simpa [Router.route, routerCtor] using hInv.rtLt
  · intro n2 hn2
    rcases (hmem_eq n2).mp hn2 with h2 | h2
    · have := hInv.nodesLt n2 h2
      simp only [Router.route, routerCtor, List.length_append, List.length_singleton]
      omega
    · rw [h2, hchild]
      simp [Router.route, routerCtor]
  · have : (root :: (ns ++ [(Router.route w n path).2])).map Router.stackRef =
        ((root :: ns).map Router.stackRef) ++ [w.stackArrays.length] := by
      simp [hchild]
    rw [this, List.nodup_append]
    refine ⟨hInv.nodesNodup, List.nodup_singleton _, ?_⟩
    intro k hk1 hk2
    simp only [List.mem_singleton] at hk2
    rcases List.mem_map.mp hk1 with ⟨n2, hn2, hkn⟩
    have := hInv.nodesLt n2 hn2
    omega
  · intro n2 hn2
    rcases (hmem_eq n2).mp hn2 with h2 | h2
    · exact hInv.sameST n2 h2
    · rw [h2, hchild]
      exact hst
  · intro n2 hn2
    rcases (hmem_eq n2).mp hn2 with h2 | h2
    · exact hInv.sameRT n2 h2
    · rw [h2, hchild]
      exact hrt
  · intro e he
    have he2 : e ∈ w.routeTables.getD root.routeTRef [] := by
      simpa [Router.route, routerCtor] using he
    have := hInv.routesLt e he2
    simp only [Router.route, routerCtor, List.length_append, List.length_singleton]
    omega
  · intro e he n2 hn2
    have he2 : e ∈ w.routeTables.getD root.routeTRef [] := by
      simpa [Router.route, routerCtor] using he
    rcases (hmem_eq n2).mp hn2 with h2 | h2
    · exact hInv.routesDisj e he2 n2 h2
    · rw [h2, hchild]
      have := hInv.routesLt e he2
      simp only []
      omega
  · rcases hInv.catchAll with ⟨e, he, hprops⟩
    have hset : (Router.route w n path).1.stackTables.getD root.stackTRef [] =
        tableAdd (tableAdd (w.stackTables.getD root.stackTRef []) "GET"
          (n.basePath ++ path ++ "/*") w.stackArrays.length)
          "GET" (n.basePath ++ path) w.stackArrays.length := by
      simp only [Router.route, routerCtor, hst]
      exact getD_set_self _ _ _ _ hInv.stLt
    rw [hset]
    exact tableAdd_key_exists _ _ _ _ _ _
      (tableAdd_key_exists _ _ _ _ _ _ ⟨e, he, hprops⟩)

mutual

theorem inv_execOp : ∀ (op : BuildOp) (w : World) (root : Router) (ns : List Router)
    (n : Router), BuildInv w root ns → n ∈ root :: ns →
    BuildInv (execOp w n op).1 root (ns ++ (execOp w n op).2)
  | .use m, w, root, ns, n, hInv, _hn => by
    simpa [execOp] using inv_use w root ns n m hInv
  | .verb method path h, w, root, ns, n, hInv, hn => by
    simpa [execOp] using inv_addRoute w root ns n method (n.basePath ++ path) h hInv hn
  | .sub path ops, w, root, ns, n, hInv, hn => by
    have h1 := inv_route w root ns n path hInv hn
    have hmem : (Router.route w n path).2 ∈
        root :: (ns ++ [(Router.route w n path).2]) := by simp
    have h2 := inv_execOps ops (Router.route w n path).1 root
      (ns ++ [(Router.route w n path).2]) (Router.route w n path).2 h1 hmem
    simp only [execOp]
    rw [show ns ++ ((Router.route w n path).2 ::
        (execOps (Router.route w n path).1 (Router.route w n path).2 ops).2) =
      (ns ++ [(Router.route w n path).2]) ++
        (execOps (Router.route w n path).1 (Router.route w n path).2 ops).2 by simp]
    exact h2

theorem inv_execOps : ∀ (ops : List BuildOp) (w : World) (root : Router)
    (ns : List Router) (n : Router), BuildInv w root ns → n ∈ root :: ns →
    BuildInv (execOps w n ops).1 root (ns ++ (execOps w n ops).2)
  | [], w, root, ns, n, hInv, _hn => by
    simpa [execOps] using hInv
  | op :: ops, w, root, ns, n, hInv, hn => by
    have h1 := inv_execOp op w root ns n hInv hn
    have hn2 : n ∈ root :: (ns ++ (execOp w n op).2) := by
      rcases List.mem_cons.mp hn with h | h
      · simp [h]
      · simp [h]
    have h2 := inv_execOps ops (execOp w n op).1 root (ns ++ (execOp w n op).2) n h1 hn2
    simp only [execOps]
    rw [show ns ++ ((execOp w n op).2 ++
        (execOps (execOp w n op).1 n ops).2) =
      (ns ++ (execOp w n op).2) ++ (execOps (execOp w n op).1 n ops).2 by simp]
    exact h2

end

theorem inv_createRouter :
    BuildInv (createRouter World.empty).1 (createRouter World.empty).2 [] := by
  refine ⟨?_, ?_, ?_, ?_, ?_, ?_, ?_, ?_, ?_⟩
  · decide
  · decide
  · intro n hn
    simp only [List.mem_singleton] at hn
    rw [hn]
    decide
  · decide
  · intro n hn
    simp only [List.mem_singleton] at hn
    rw [hn]
  · intro n hn
    simp only [List.mem_singleton] at hn
    rw [hn]
  · intro e he
    simp [createRouter, routerCtor, World.empty] at he
  · intro e he
    simp [createRouter, routerCtor, World.empty] at he
  · exact ⟨⟨"GET", "/*", 0⟩, by decide, rfl, rfl⟩

theorem inv_buildAll (ops : List BuildOp) :
    BuildInv (buildAll ops).1 (buildAll ops).2.1 (buildAll ops).2.2 := by
  have h := inv_execOps ops (createRouter World.empty).1 (createRouter World.empty).2
    [] (createRouter World.empty).2 inv_createRouter (by simp)
  simpa [buildAll] using h

/-- Claim C5: in every router tree built from `createRouter`, no two
nodes share the same mutable stack array, and no node shares its array
with an already-registered route's captured snapshot; consequently a
later `use` call on any node changes neither another node's working
stack nor any registered route's captured stack. -/
theorem claim5_stack_snapshots (ops : List BuildOp) :
    ((((buildAll ops).2.1 :: (buildAll ops).2.2).map Router.stackRef).Nodup) ∧
    (∀ e ∈ (buildAll ops).1.routeTables.getD (buildAll ops).2.1.routeTRef [],
      ∀ n ∈ (buildAll ops).2.1 :: (buildAll ops).2.2, e.store.stackRef ≠ n.stackRef) ∧
    (∀ n ∈ (buildAll ops).2.1 :: (buildAll ops).2.2, ∀ m : Mw,
      ∀ n2 ∈ (buildAll ops).2.1 :: (buildAll ops).2.2, n2 ≠ n →
      (Router.use (buildAll ops).1 n m).stackArrays.getD n2.stackRef [] =
        (buildAll ops).1.stackArrays.getD n2.stackRef []) ∧
    (∀ n ∈ (buildAll ops).2.1 :: (buildAll ops).2.2, ∀ m : Mw,
      ∀ e ∈ (buildAll ops).1.routeTables.getD (buildAll ops).2.1.routeTRef [],
      (Router.use (buildAll ops).1 n m).stackArrays.getD e.store.stackRef [] =
        (buildAll ops).1.stackArrays.getD e.store.stackRef []) := by
  have hInv := inv_buildAll ops
  refine ⟨hInv.nodesNodup, hInv.routesDisj, ?_, ?_⟩
  · intro n hn m n2 hn2 hne
    simp only [Router.use]
    apply getD_set_ne
    intro heq
    exact hne (List.inj_on_of_nodup_map hInv.nodesNodup hn2 hn heq.symm)
  · intro n hn m e he
    simp only [Router.use]
    apply getD_set_ne
    exact fun heq => hInv.routesDisj e he n hn heq.symm

theorem claim5_stack_snapshots_witness :
    ((((buildAll c5Ops).2.1 :: (buildAll c5Ops).2.2).map Router.stackRef).Nodup) ∧
    ((⟨"GET", "/a", ⟨"/a", 1, obsHandler ⟨200, []⟩⟩⟩ : Entry RouteStore).store.stackRef ≠
      (buildAll c5Ops).2.1.stackRef) ∧
    ((Router.use (buildAll c5Ops).1 (buildAll c5Ops).2.1
        (tagMw 9 (fun l => l))).stackArrays.getD (⟨"/s", 2, 0, 0⟩ : Router).stackRef [] =
      (buildAll c5Ops).1.stackArrays.getD (⟨"/s", 2, 0, 0⟩ : Router).stackRef []) ∧
    ((Router.use (buildAll c5Ops).1 (buildAll c5Ops).2.1
        (tagMw 9 (fun l => l))).stackArrays.getD
          (⟨"GET", "/a", ⟨"/a", 1, obsHandler ⟨200, []⟩⟩⟩ : Entry RouteStore).store.stackRef [] =
      (buildAll c5Ops).1.stackArrays.getD
        (⟨"GET", "/a", ⟨"/a", 1, obsHandler ⟨200, []⟩⟩⟩ : Entry RouteStore).store.stackRef []) :=
  ⟨(claim5_stack_snapshots c5Ops).1,
   (claim5_stack_snapshots c5Ops).2.1 _ (List.mem_singleton.mpr rfl) _
     (List.mem_cons_self _ _),
   (claim5_stack_snapshots c5Ops).2.2.1 _ (List.mem_cons_self _ _) _ _
     (by decide) (by decide),
   (claim5_stack_snapshots c5Ops).2.2.2 _ (List.mem_cons_self _ _) _ _
     (List.mem_singleton.mpr rfl)⟩

/-- Claim C10: when neither the route lookup nor the base-path stack
lookup yields a stack, `Router.handle` throws the internal
`"No stack handler found"` error instead of returning a 404; and because
every node's constructor registers `basePath` and `basePath ++ "/*"` in
the stack router, the base-path lookup succeeds for every request on
every router tree built from `createRouter`, so that branch is
unreachable there. -/
theorem claim10_stack_invariant :
    (∀ (w : World) (n : Router) (req : Request),
      tableFind (w.routeTables.getD n.routeTRef []) req.method (reqPath req) = none →
      tableFind (w.stackTables.getD n.stackTRef []) "GET" (reqPath req) = none →
      Router.handle w n req = ([], .error .noStackHandler)) ∧
    (∀ (ops : List BuildOp) (req : Request),
      ∃ r, tableFind ((buildAll ops).1.stackTables.getD (buildAll ops).2.1.stackTRef [])
        "GET" (reqPath req) = some r) := by
  constructor
  · exact fun w n req hf hs => handle_no_stack w n req hf hs
  · intro ops req
    rcases (inv_buildAll ops).catchAll with ⟨e, he, hm, hp⟩
    exact tableFind_catchAll _ e he hm hp (extractPath req.url)

theorem claim10_stack_invariant_witness :
    (Router.handle World.empty ⟨"", 0, 0, 0⟩ ⟨"GET", "http://x.y/a"⟩ =
      ([], .error .noStackHandler)) ∧
    (∃ r, tableFind ((buildAll []).1.stackTables.getD (buildAll []).2.1.stackTRef [])
      "GET" (reqPath ⟨"GET", "http://x.y/a"⟩) = some r) :=
  ⟨claim10_stack_invariant.1 World.empty ⟨"", 0, 0, 0⟩ ⟨"GET", "http://x.y/a"⟩ rfl rfl,
   claim10_stack_invariant.2 [] ⟨"GET", "http://x.y/a"⟩⟩

theorem handle_tag_obsHandler (w2 : World) (r0 : Router) (req : Request)
    (store : RouteStore) (ms : List (Nat × (Locals → Locals))) (r : Rsp)
    (hfind : tableFind (w2.routeTables.getD r0.routeTRef []) req.method (reqPath req) =
      some (store, []))
    (hh : store.handler = obsHandler r)
    (hstack : w2.stackArrays.getD store.stackRef [] = ms.map tagMwP) :
    Router.handle w2 r0 req =
      (befores ms ++
        [.handlerObs (foldLocals ms []) (some store.matchingRoute) []] ++
        aftersRev ms,
       .ok r) := by
  rw [handle_route_match w2 r0 req store [] _ hfind rfl, hstack]
  have h1 := runChain_tag
    (mwCtx req store (tableFind (w2.stackTables.getD r0.stackTRef []) "GET" (reqPath req)) [])
    (fun out => store.handler (handlerCtx req store [] out))
    ms [] []
  simp only [List.append_nil] at h1
  rw [h1]
  simp only [runChain, hh, obsHandler, handlerCtx]

/-- Claim C6: a sub-router created by `route(path, fn)` has
`basePath = parent.basePath ++ path` and shares the parent's route-table
and stack-table instances; a route registered in the child under a
relative path is found and dispatched by the root's `handle` at the
normalized concatenation, running the child's captured middleware stack
and the registered handler. -/
theorem claim6_subrouter (w : World) (n : Router) (p rp : String) (r : Rsp)
    (ms : List (Nat × (Locals → Locals))) (r0 : Router) (req : Request)
    (hkeys : keysOK (w.routeTables.getD n.routeTRef []))
    (hrtLt : n.routeTRef < w.routeTables.length)
    (hparent : w.stackArrays.getD n.stackRef [] = ms.map tagMwP)
    (hr0 : r0.routeTRef = n.routeTRef)
    (hmethod : req.method = "GET")
    (hpath : reqPath req = normalizePath (n.basePath ++ p ++ rp))
    (hlit : ∀ s ∈ segs (normalizePath (n.basePath ++ p ++ rp)),
      isParamSeg s = false ∧ s ≠ "*") :
    (Router.route w n p).2.basePath = n.basePath ++ p ∧
    (Router.route w n p).2.routeTRef = n.routeTRef ∧
    (Router.route w n p).2.stackTRef = n.stackTRef ∧
    Router.handle
      (Router.get (Router.route w n p).1 (Router.route w n p).2 rp (obsHandler r))
      r0 req =
      (befores ms ++
        [.handlerObs (foldLocals ms []) (some (n.basePath ++ p ++ rp)) []] ++
        aftersRev ms,
       .ok r) := by
  refine ⟨rfl, rfl, rfl, ?_⟩
  have hchild : (Router.route w n p).2 =
      ⟨n.basePath ++ p, w.stackArrays.length, n.stackTRef, n.routeTRef⟩ := rfl
  have hT1 : (Router.get (Router.route w n p).1 (Router.route w n p).2 rp
        (obsHandler r)).routeTables.getD r0.routeTRef [] =
      tableAdd (w.routeTables.getD n.routeTRef []) "GET"
        (normalizePath (n.basePath ++ p ++ rp))
        ⟨n.basePath ++ p ++ rp, (Router.route w n p).1.stackArrays.length, obsHandler r⟩ := by
    simp only [Router.get, Router.addRoute, hr0, hchild]
    exact getD_set_self _ _ _ _ hrtLt
  rcases tableAdd_self (w.routeTables.getD n.routeTRef []) "GET"
      (normalizePath (n.basePath ++ p ++ rp))
      (⟨n.basePath ++ p ++ rp, (Router.route w n p).1.stackArrays.length, obsHandler r⟩ :
        RouteStore) with ⟨x, hx, hxm, hxp, hxs⟩
  have hfind : tableFind
      ((Router.get (Router.route w n p).1 (Router.route w n p).2 rp
        (obsHandler r)).routeTables.getD r0.routeTRef []) req.method (reqPath req) =
      some (x.store, []) := by
    rw [hT1, hmethod, hpath]
    exact tableFind_exact _ _ _ x (keysOK_tableAdd _ _ _ _ hkeys) hx hxm hxp hlit
  have hsnap : (Router.get (Router.route w n p).1 (Router.route w n p).2 rp
        (obsHandler r)).stackArrays.getD x.store.stackRef [] = ms.map tagMwP := by
    rw [hxs]
    show ((Router.route w n p).1.stackArrays ++
        [(Router.route w n p).1.stackArrays.getD (Router.route w n p).2.stackRef []]).getD
      (Router.route w n p).1.stackArrays.length [] = ms.map tagMwP
    rw [getD_append_self]
    show (w.stackArrays ++ [w.stackArrays.getD n.stackRef []]).getD w.stackArrays.length [] =
      ms.map tagMwP
    rw [getD_append_self]
    exact hparent
  have hrun := handle_tag_obsHandler
    (Router.get (Router.route w n p).1 (Router.route w n p).2 rp (obsHandler r))
    r0 req x.store ms r hfind (by rw [hxs]) hsnap
  rw [hxs] at hrun
  exact hrun

theorem claim6_subrouter_witness :
    (Router.route c6Parent.1 c6Parent.2 "/api").2.basePath = "/api" ∧
    (Router.route c6Parent.1 c6Parent.2 "/api").2.routeTRef = c6Parent.2.routeTRef ∧
    (Router.route c6Parent.1 c6Parent.2 "/api").2.stackTRef = c6Parent.2.stackTRef ∧
    Router.handle
      (Router.get (Router.route c6Parent.1 c6Parent.2 "/api").1
        (Router.route c6Parent.1 c6Parent.2 "/api").2 "/v" (obsHandler ⟨200, []⟩))
      c6Parent.2 ⟨"GET", "http://x.y/api/v"⟩ =
      ([.before 1, .handlerObs [("a", "1")] (some "/api/v") [], .after 1],
       .ok ⟨200, []⟩) := by
  have h := claim6_subrouter c6Parent.1 c6Parent.2 "/api" "/v" ⟨200, []⟩
    [(1, fun l => ("a", "1") :: l)] c6Parent.2 ⟨"GET", "http://x.y/api/v"⟩
    (by unfold keysOK; decide) (by decide) (by rfl) rfl rfl (by decide) (by decide)
  exact ⟨h.1, h.2.1, h.2.2.1, h.2.2.2.trans (by decide)⟩

/-- Claim C9: registering a route when one already exists for the same
`(method, normalized path)` overwrites it — a subsequent `handle` for
that method and path dispatches to the last-registered handler with the
stack captured at the last registration (here: including a middleware
added between the two registrations). -/
theorem claim9_overwrite (w : World) (n : Router) (m path path2 : String)
    (fn1 : Handler) (r : Rsp) (ms : List (Nat × (Locals → Locals)))
    (idX : Nat) (fX : Locals → Locals) (r0 : Router) (req : Request)
    (hkeys : keysOK (w.routeTables.getD n.routeTRef []))
    (hrtLt : n.routeTRef < w.routeTables.length)
    (hsLt : n.stackRef < w.stackArrays.length)
    (hstack : w.stackArrays.getD n.stackRef [] = ms.map tagMwP)
    (hr0 : r0.routeTRef = n.routeTRef)
    (hmethod : req.method = m)
    (hpath : reqPath req = normalizePath (n.basePath ++ path2))
    (hlit : ∀ s ∈ segs (normalizePath (n.basePath ++ path2)),
      isParamSeg s = false ∧ s ≠ "*") :
    Router.handle
      (Router.addRoute
        (Router.use (Router.addRoute w n m (n.basePath ++ path) fn1) n (tagMw idX fX))
        n m (n.basePath ++ path2) (obsHandler r))
      r0 req =
      (befores (ms ++ [(idX, fX)]) ++
        [.handlerObs (foldLocals (ms ++ [(idX, fX)]) [])
          (some (n.basePath ++ path2)) []] ++
        aftersRev (ms ++ [(idX, fX)]),
       .ok r) := by
  have hT1 : (Router.addRoute
        (Router.use (Router.addRoute w n m (n.basePath ++ path) fn1) n (tagMw idX fX))
        n m (n.basePath ++ path2) (obsHandler r)).routeTables.getD r0.routeTRef [] =
      tableAdd
        (tableAdd (w.routeTables.getD n.routeTRef []) m
          (normalizePath (n.basePath ++ path))
          ⟨n.basePath ++ path, w.stackArrays.length, fn1⟩)
        m (normalizePath (n.basePath ++ path2))
        ⟨n.basePath ++ path2,
          (Router.use (Router.addRoute w n m (n.basePath ++ path) fn1) n
            (tagMw idX fX)).stackArrays.length,
          obsHandler r⟩ := by
    simp only [Router.addRoute, Router.use, hr0]
    rw [getD_set_self _ _ _ _ (by simpa using hrtLt)]
    rw [getD_set_self _ _ _ _ hrtLt]
  rcases tableAdd_self
      (tableAdd (w.routeTables.getD n.routeTRef []) m
        (normalizePath (n.basePath ++ path))
        ⟨n.basePath ++ path, w.stackArrays.length, fn1⟩)
      m (normalizePath (n.basePath ++ path2))
      (⟨n.basePath ++ path2,
        (Router.use (Router.addRoute w n m (n.basePath ++ path) fn1) n
          (tagMw idX fX)).stackArrays.length,
        obsHandler r⟩ : RouteStore) with ⟨x, hx, hxm, hxp, hxs⟩
  have hfind : tableFind
      ((Router.addRoute
        (Router.use (Router.addRoute w n m (n.basePath ++ path) fn1) n (tagMw idX fX))
        n m (n.basePath ++ path2) (obsHandler r)).routeTables.getD r0.routeTRef [])
      req.method (reqPath req) = some (x.store, []) := by
    rw [hT1, hmethod, hpath]
    exact tableFind_exact _ _ _ x
      (keysOK_tableAdd _ _ _ _ (keysOK_tableAdd _ _ _ _ hkeys)) hx hxm hxp hlit
  have hmid : (Router.use (Router.addRoute w n m (n.basePath ++ path) fn1) n
        (tagMw idX fX)).stackArrays.getD n.stackRef [] =
      (ms ++ [(idX, fX)]).map tagMwP := by
    simp only [Router.use, Router.addRoute]
    rw [getD_set_self _ _ _ _ (by simp; omega)]
    rw [getD_append_lt _ _ _ _ hsLt, hstack]
    simp [tagMwP]
  have hsnap : (Router.addRoute
        (Router.use (Router.addRoute w n m (n.basePath ++ path) fn1) n (tagMw idX fX))
        n m (n.basePath ++ path2) (obsHandler r)).stackArrays.getD x.store.stackRef [] =
      (ms ++ [(idX, fX)]).map tagMwP := by
    rw [hxs]
    show ((Router.use (Router.addRoute w n m (n.basePath ++ path) fn1) n
        (tagMw idX fX)).stackArrays ++
        [(Router.use (Router.addRoute w n m (n.basePath ++ path) fn1) n
          (tagMw idX fX)).stackArrays.getD n.stackRef []]).getD
      (Router.use (Router.addRoute w n m (n.basePath ++ path) fn1) n
        (tagMw idX fX)).stackArrays.length [] = (ms ++ [(idX, fX)]).map tagMwP
    rw [getD_append_self, hmid]
  have hrun := handle_tag_obsHandler
    (Router.addRoute
      (Router.use (Router.addRoute w n m (n.basePath ++ path) fn1) n (tagMw idX fX))
      n m (n.basePath ++ path2) (obsHandler r))
    r0 req x.store (ms ++ [(idX, fX)]) r hfind (by rw [hxs]) hsnap
  rw [hxs] at hrun
  exact hrun

theorem claim9_overwrite_witness :
    Router.handle c9World.1 c9World.2 ⟨"GET", "http://x.y/dup"⟩ =
      ([.before 1, .before 2,
        .handlerObs [("b", "2"), ("a", "1")] (some "/dup") [],
        .after 2, .after 1], .ok ⟨222, []⟩) := by
  have h := claim9_overwrite
    (Router.use (createRouter World.empty).1 (createRouter World.empty).2
      (tagMw 1 (fun l => ("a", "1") :: l)))
    (createRouter World.empty).2 "GET" "/dup" "/dup" (obsHandler ⟨111, []⟩) ⟨222, []⟩
    [(1, fun l => ("a", "1") :: l)] 2 (fun l => ("b", "2") :: l)
    (createRouter World.empty).2 ⟨"GET", "http://x.y/dup"⟩
    (by unfold keysOK; decide) (by decide) (by decide) (by rfl) rfl rfl (by decide) (by decide)
  exact h.trans (by decide)

example : normalizePath "//a///b//" = "/a/b" := by decide

example : normalizePath "" = "/" := by decide

example : extractPath "http://example.com/foo/bar?x=1" = "foo/bar" := by decide

example : reqPath { method := "GET", url := "http://example.com/foo//bar/" } = "/foo/bar" := by decide

example : matchSegs (segs "/foo/:a/:b") (segs "/foo/aa/bb") = some [("a", "aa"), ("b", "bb")] := by decide

example : matchSegs (segs "/foo/:bar/*") (segs "/foo/x/aa/bb") = some [("bar", "x"), ("*", "aa/bb")] := by decide

example : matchSegs (segs "/*") (segs "/") = some [("*", "")] := by decide
